import Mathlib

/-!
Verification development for the gitops-promotions-operator repository.

The Go sources are shallowly embedded as pure Lean functions:
  - api/v1alpha1 condition helpers and the Promotion and Environment records;
  - internal/controller/promotion_controller.go: the Reconcile orchestration
    (modelled as a deterministic function over a record of external outcomes),
    CopyOperation, and the commit-message and pull-request-title templates;
  - internal/controller/environment_controller.go: SetupGitAuthEnvironment and
    NewGitProviderOrgRepository.
External collaborators (kubernetes API reads, git clone and push, the
git-hosting provider API, temporary directories) are world parameters whose
outcomes are inputs of the model.  Filesystems are finite maps from component
paths to file contents plus a set of explicitly created directories.
-/

/-! ## Conditions (api/v1alpha1/conditions and promotion_types.go helpers) -/

/-- Status of a metav1.Condition: True, False, or Unknown. -/
inductive CStatus where
  | condTrue
  | condFalse
  | condUnknown
deriving DecidableEq

/-- A metav1.Condition restricted to the fields the controller reads/writes. -/
structure Condition where
  ctype : String
  status : CStatus
  reason : String
  message : String
deriving DecidableEq

/-- The ReadyCondition type string used throughout the api package. -/
def readyCondition : String := "Ready"

/-- Modelled from the spec: the SucceededReason constant of the api package
(its definition is outside src/); its exact value does not affect any claim. -/
def succeededReason : String := "Succeeded"

/-- meta.SetStatusCondition: replace the condition of the same type if present,
otherwise append the new condition. -/
def setStatusCondition (conds : List Condition) (c : Condition) : List Condition :=
  if conds.any (fun x => x.ctype == c.ctype) then
    conds.map (fun x => if x.ctype == c.ctype then c else x)
  else conds ++ [c]

/-- meta.FindStatusCondition: first condition of the given type. -/
def findCondition (conds : List Condition) (t : String) : Option Condition :=
  conds.find? (fun x => x.ctype == t)

/-! ## Data model (api/v1alpha1) -/

/-- A filesystem path as a list of components. -/
abbrev FPath := List String

/-- CopyOperation from promotion_types.go: a named source/target path pair. -/
structure CopyOp where
  name : String
  source : String
  target : String
deriving DecidableEq

/-- PromotionStatus from promotion_types.go. -/
structure PromotionStatus where
  observedGeneration : Int
  conditions : List Condition
  lastPullRequestURL : String
  lastPullRequestNumber : Int
deriving DecidableEq

/-- Promotion object: metadata, spec fields, and status.
environment references are by name; strategy is the literal spec string. -/
structure Promotion where
  name : String
  generation : Int
  sourceEnvironmentRef : String
  targetEnvironmentRef : String
  copy : List CopyOp
  strategy : String
  status : PromotionStatus
deriving DecidableEq

/-- Environment object: the fields the promotion reconciler reads.  The
configured path is kept in component form; reference is Spec.Source.Reference
(the configured branch, when present). -/
structure Environment where
  name : String
  path : FPath
  reference : Option String
  secretRef : Option String
  apiTokenSecretRef : Option String
  gitProvider : String
  conditions : List Condition
deriving DecidableEq

/-- Environment.IsReady: the Ready condition is present with status True. -/
def isReadyEnv (e : Environment) : Bool :=
  match findCondition e.conditions readyCondition with
  | some c => c.status == CStatus.condTrue
  | none => false

/-- PromotionReady: set the Ready condition to True with reason and message. -/
def promotionReady (p : Promotion) (reason msg : String) : Promotion :=
  { p with status := { p.status with
      conditions := setStatusCondition p.status.conditions
        { ctype := readyCondition, status := CStatus.condTrue
          reason := reason, message := msg } } }

/-- PromotionNotReady: set the Ready condition to False with reason and
message.  Defined by promotion_types.go; the promotion reconciler never calls
it. -/
def promotionNotReady (p : Promotion) (reason msg : String) : Promotion :=
  { p with status := { p.status with
      conditions := setStatusCondition p.status.conditions
        { ctype := readyCondition, status := CStatus.condFalse
          reason := reason, message := msg } } }

/-- PromotionReadyMessage: message of the Ready condition when its status is
True, otherwise the empty string. -/
def promotionReadyMessage (p : Promotion) : String :=
  match findCondition p.status.conditions readyCondition with
  | some c => if c.status == CStatus.condTrue then c.message else ""
  | none => ""

/-! ## Filesystem model

Workspaces are modelled as a list of (path, content) files together with a
list of explicitly created directories.  A path is a directory when it is the
root, an explicitly created directory (or an ancestor of one), or a strict
ancestor of some file. -/

/-- Association lookup over the file list. -/
def lookupFS : List (FPath × String) → FPath → Option String
  | [], _ => none
  | (k, v) :: t, q => if k = q then some v else lookupFS t q

/-- Write a file: replace the entry of the same path or append a new one. -/
def setFile : List (FPath × String) → FPath → String → List (FPath × String)
  | [], k, v => [(k, v)]
  | (k0, v0) :: t, k, v => if k0 = k then (k, v) :: t else (k0, v0) :: setFile t k v

/-- A workspace filesystem: files plus explicitly created directories. -/
structure FSState where
  files : List (FPath × String)
  dirs : List FPath
deriving DecidableEq

/-- Whether a path is a file. -/
def isFileFS (fs : FSState) (p : FPath) : Bool :=
  (lookupFS fs.files p).isSome

/-- Whether a path is a directory: root, ancestor of an explicit directory, or
strict ancestor of some file. -/
def isDirFS (fs : FSState) (p : FPath) : Bool :=
  p.isEmpty || fs.dirs.any (fun d => List.isPrefixOf p d) ||
    fs.files.any (fun kv => List.isPrefixOf p kv.1 && decide (p ≠ kv.1))

/-- Result of os.Stat when it succeeds: a file or a directory. -/
inductive FileKind where
  | file
  | dir
deriving DecidableEq

/-- os.Stat on the modelled filesystem: errors when the path does not exist. -/
def statFS (fs : FSState) (p : FPath) : Except String FileKind :=
  if isFileFS fs p then Except.ok FileKind.file
  else if isDirFS fs p then Except.ok FileKind.dir
  else Except.error "stat: no such file or directory"

/-- Modelled from the spec: fs.Exists of internal/fs (not under src/), a path
exists when it is a file or a directory. -/
def fsExists (fs : FSState) (p : FPath) : Bool :=
  isFileFS fs p || isDirFS fs p

/-- os.MkdirAll: record the directory; errors when the path is a file.
Missing intermediate directories are implied by the prefix semantics of
isDirFS, so recording the deepest path suffices. -/
def mkdirAll (fs : FSState) (p : FPath) : Except String FSState :=
  if isFileFS fs p then Except.error "mkdir: not a directory"
  else Except.ok { fs with dirs := p :: fs.dirs }

/-- Modelled from the spec: fs.Copy of internal/fs (not under src/) copies one
file content from the source workspace to a target path. -/
def fsCopy (src tgt : FSState) (sp tp : FPath) : Except String FSState :=
  match lookupFS src.files sp with
  | none => Except.error "copy: source not found"
  | some v => Except.ok { tgt with files := setFile tgt.files tp v }

/-- Relocate a path under the source root to the same relative path under the
target root. -/
def relocatePath (sp tp q : FPath) : FPath :=
  tp ++ q.drop sp.length

/-- Modelled from the spec: fs.CopyDirectory of internal/fs (not under src/)
recursively copies the contents of the source directory into the target. -/
def fsCopyDirectory (src tgt : FSState) (sp tp : FPath) : Except String FSState :=
  Except.ok
    { files := src.files.foldl
        (fun acc kv =>
          if List.isPrefixOf sp kv.1 then setFile acc (relocatePath sp tp kv.1) kv.2 else acc)
        tgt.files
      dirs := tp :: tgt.dirs ++ src.dirs.filterMap
        (fun d => if List.isPrefixOf sp d then some (relocatePath sp tp d) else none) }

/-- Last path component ("" for the root). -/
def lastComponent (p : FPath) : String := p.getLastD ""

/-- Parent directory of a path. -/
def dirOf (p : FPath) : FPath := p.dropLast

/-- CopyOperation from promotion_controller.go (lines 372-416): reject a
missing source; stat both paths; directory sources are copied recursively,
file sources are placed inside an existing directory target under their base
name, otherwise copied to the literal target path.  Note that os.Stat on the
target path is consulted unconditionally, so a target path that does not yet
exist makes the whole operation fail with the stat error. -/
def copyOperation (src tgt : FSState) (copySource copyTarget : FPath) :
    Except String FSState :=
  if fsExists src copySource = false then
    Except.error "source path does not exist"
  else
    match statFS src copySource with
    | Except.error e => Except.error e
    | Except.ok srcKind =>
      match statFS tgt copyTarget with
      | Except.error e => Except.error e
      | Except.ok tgtKind =>
        if srcKind = FileKind.dir then
          match mkdirAll tgt (dirOf copyTarget) with
          | Except.error e => Except.error e
          | Except.ok tgt1 => fsCopyDirectory src tgt1 copySource copyTarget
        else
          match
            mkdirAll tgt
              (dirOf (if tgtKind = FileKind.dir then
                        copyTarget ++ [lastComponent copySource]
                      else copyTarget)) with
          | Except.error e => Except.error e
          | Except.ok tgt1 =>
            fsCopy src tgt1 copySource
              (if tgtKind = FileKind.dir then copyTarget ++ [lastComponent copySource]
               else copyTarget)

/-! ## SecureJoin (github.com/cyphar/filepath-securejoin)

SecureJoin(root, rawPath) resolves rawPath as if root were the
filesystem root: empty and dot components are skipped and a dot-dot component
removes the previously accepted component, clamping at the root.  The cloned
workspaces contain no symbolic links, so the symlink-chasing part of the
library is the identity and the function never returns an error (its only
error is a symlink-loop budget). -/

/-- One resolution step of SecureJoin over the already accepted components. -/
def secureJoinStep (acc : List String) (c : String) : List String :=
  if c = "" || c = "." then acc
  else if c = ".." then acc.dropLast
  else acc ++ [c]

/-- Root-relative resolution of the unsafe path components. -/
def secureJoinComponents (comps : List String) : List String :=
  comps.foldl secureJoinStep []

/-- Split a character list at slashes (the component split of a path
string, as String.splitOn with separator slash). -/
def splitSlashAux : List Char → List Char → List String
  | [], acc => [String.mk acc.reverse]
  | c :: rest, acc =>
    if c = '/' then String.mk acc.reverse :: splitSlashAux rest []
    else splitSlashAux rest (c :: acc)

/-- Path components of a path string. -/
def splitPath (s : String) : List String :=
  splitSlashAux s.toList []

/-- SecureJoin: the confined join of the unsafe path onto the root. -/
def secureJoin (root : FPath) (rawPath : String) : FPath :=
  root ++ secureJoinComponents (splitPath rawPath)

/-! ## Credential resolution (environment_controller.go lines 109-135)

URLs are modelled as lists of characters so that the two strings.Replace
calls of the Go code (each with count 1) can be reasoned about directly. -/

/-- Whether the pattern is an initial segment of the text. -/
def startsWithL : List Char → List Char → Bool
  | [], _ => true
  | _ :: _, [] => false
  | p :: ps, c :: cs => p = c && startsWithL ps cs

/-- strings.Replace(s, old, new, 1): replace the first occurrence of the old
pattern, leaving the text unchanged when the pattern does not occur. -/
def replaceFirst (s pat new : List Char) : List Char :=
  if startsWithL pat s then new ++ s.drop pat.length
  else
    match s with
    | [] => []
    | c :: rest => c :: replaceFirst rest pat new

/-- The literal scheme text of the first replacement. -/
def httpsPat : List Char := ['h', 't', 't', 'p', 's', ':', '/', '/']

/-- The git@ replacement of the scheme. -/
def gitAtPat : List Char := ['g', 'i', 't', '@']

/-- The .com/ pattern of the second replacement. -/
def comSlashPat : List Char := ['.', 'c', 'o', 'm', '/']

/-- The .com: replacement. -/
def comColonPat : List Char := ['.', 'c', 'o', 'm', ':']

/-- An SSH key secret: the bytes stored under the private key. -/
structure SSHSecret where
  privateKey : List Char
deriving DecidableEq

/-- The go-git ssh.PublicKeys auth handle restricted to the fields the code
sets: the user and the fact that the host key callback ignores every host
key.  The parsed signer itself is abstract and not recorded. -/
structure PublicKeysAuth where
  user : String
  insecureIgnoreHostKey : Bool
deriving DecidableEq

/-- SetupGitAuthEnvironment: without a secret reference the URL passes through
with no auth; with one, the private key is fetched and parsed, an SSH auth
handle with user git and host key verification disabled is built, and the URL
is rewritten by replacing the first https:// with git@ and the first .com/
with .com: (environment_controller.go lines 109-135). -/
def setupGitAuthEnvironment (getSecret : String → Except String SSHSecret)
    (parsePrivateKey : List Char → Except String Unit)
    (secretRef : Option String) (sourceURL : List Char) :
    Except String (Option PublicKeysAuth × List Char) :=
  match secretRef with
  | none => Except.ok (none, sourceURL)
  | some sname =>
    match getSecret sname with
    | Except.error e => Except.error e
    | Except.ok s =>
      match parsePrivateKey s.privateKey with
      | Except.error e => Except.error e
      | Except.ok _ =>
        Except.ok (some { user := "git", insecureIgnoreHostKey := true },
          replaceFirst (replaceFirst sourceURL httpsPat gitAtPat) comSlashPat comColonPat)

/-! ## Provider client construction (environment_controller.go lines 159-194) -/

/-- The GitProviderGitHub constant of the api package. -/
def gitProviderGitHub : String := "github"

/-- An API token secret: the string stored under the token key.  A missing
apiTokenSecretRef leaves the secret empty, so the token is the empty string. -/
structure TokenSecret where
  token : String
deriving DecidableEq

/-- Outcome of NewGitProviderOrgRepository: a repository handle, a returned
error, or a runtime panic from calling through a nil provider client. -/
inductive ProvResult where
  | ok (repo : Nat)
  | err (e : String)
  | nilClientPanic
deriving DecidableEq

/-- The token secret fetch at the head of NewGitProviderOrgRepository. -/
def tokenSecretFetch (getSecret : String → Except String TokenSecret)
    (apiTokenSecretRef : Option String) : Except String TokenSecret :=
  match apiTokenSecretRef with
  | some sname => getSecret sname
  | none => Except.ok { token := "" }

/-- The switch on Spec.GitProvider: the github case builds a client; the
default case only prints a message, leaves the client nil, and returns no
error.  Clients are abstract handles. -/
def selectProviderClient (provider token : String)
    (githubNewClient : String → Except String Nat) : Except String (Option Nat) :=
  if provider = gitProviderGitHub then
    match githubNewClient token with
    | Except.error e => Except.error e
    | Except.ok c => Except.ok (some c)
  else Except.ok none

/-- NewGitProviderOrgRepository: fetch the token secret, select the provider
client, parse the source URL into an org-repository reference, then call
OrgRepositories().Get on the client.  When the switch left the client nil the
call dereferences a nil interface, which is a panic, not an error return. -/
def newGitProviderOrgRepository (getSecret : String → Except String TokenSecret)
    (githubNewClient : String → Except String Nat)
    (parseOrgRepositoryURL : List Char → Except String Nat)
    (orgRepositoriesGet : Nat → Nat → Except String Nat)
    (apiTokenSecretRef : Option String) (gitProvider : String)
    (sourceURL : List Char) : ProvResult :=
  match tokenSecretFetch getSecret apiTokenSecretRef with
  | Except.error e => ProvResult.err e
  | Except.ok s =>
    match selectProviderClient gitProvider s.token githubNewClient with
    | Except.error e => ProvResult.err e
    | Except.ok c =>
      match parseOrgRepositoryURL sourceURL with
      | Except.error e => ProvResult.err e
      | Except.ok ref =>
        match c with
        | none => ProvResult.nilClientPanic
        | some cl =>
          match orgRepositoriesGet cl ref with
          | Except.error e => ProvResult.err e
          | Except.ok repo => ProvResult.ok repo

/-! ## The promotion reconcile (promotion_controller.go lines 60-358)

The reconcile is a deterministic function of the Promotion object and a world
record holding the outcomes of every external interaction, in program order.
It returns the final object (after the deferred status update), the requeue
delay, the returned error, whether the attempt panicked, and a trace of the
side effects it attempted. -/

/-- Result of a kubernetes Get: found, not found, or another error. -/
inductive KRes (A : Type) where
  | ok (a : A)
  | notFound
  | err (e : String)

/-- The cached view of a pull request: number, URL, and head branch. -/
structure PRInfo where
  number : Int
  url : String
  sourceBranch : String
deriving DecidableEq

/-- The cloned source environment repository: head commit hash and worktree. -/
structure SourceRepoState where
  headHash : String
  fs : FSState
deriving DecidableEq

/-- One attempted side effect of a reconcile run. -/
inductive Effect where
  | cloneSource
  | cloneTarget
  | providerRepo
  | providerList
  | prGet (n : Int)
  | fetchRemote
  | checkoutBranch (branch : String) (create force : Bool)
  | copyOp (src tgt : FPath)
  | addAll
  | commit (msg : String)
  | push
  | prCreate (title branch base : String)
  | prEdit (n : Int) (title : String)
  | statusUpdate
deriving DecidableEq

/-- Outcomes of every external interaction of one reconcile attempt, in
program order.  The indexed fields give the outcome of the n-th staging,
commit, or push. -/
structure ReconcileWorld where
  sourceEnvR : KRes Environment
  targetEnvR : KRes Environment
  tmpSourceR : Except String Unit
  cloneSourceR : Except String SourceRepoState
  tmpTargetR : Except String Unit
  cloneTargetR : Except String FSState
  providerRepoR : Except String Unit
  authR : Except String Unit
  listPRsR : Except String (List PRInfo)
  getPRR : Int → Except String PRInfo
  fetchR : Except String Unit
  checkoutOpenR : Except String Unit
  checkoutNewR : Except String Unit
  prBranchTree : FSState
  timestampStr : String
  addR : Nat → Except String Unit
  commitR : Nat → Except String Unit
  pushR : Nat → Except String Unit
  editPRR : Except String Unit
  createPRR : Except String PRInfo

/-- Result of one reconcile attempt. -/
structure ReconcileOut where
  obj : Promotion
  requeueAfter : Option Nat
  err : Option String
  panicked : Bool
  trace : List Effect

/-- The deferred tail of the reconcile: set ObservedGeneration from the
object generation and update the status subresource (lines 72-78), then
return the result. -/
def finishRec (obj : Promotion) (tr : List Effect) (req : Option Nat)
    (err : Option String) (pan : Bool) : ReconcileOut :=
  { obj := { obj with status := { obj.status with observedGeneration := obj.generation } }
    requeueAfter := req
    err := err
    panicked := pan
    trace := tr ++ [Effect.statusUpdate] }

/-- First seven characters of the source head commit hash (line 270). -/
def firstSeven (s : String) : String := String.mk (s.toList.take 7)

/-- The commit message template of lines 272-276. -/
def mkCommitMsg (opName srcEnvName tgtEnvName hashSeven : String) : String :=
  "chore: promote " ++ opName ++ " from " ++ srcEnvName ++ " to " ++ tgtEnvName ++
    "\n\nSHA in source environment: " ++ hashSeven ++ "\n"

/-- The pull request title of lines 320-321: comma-joined promoted subjects. -/
def mkPRTitle (subjects : List String) (srcEnvName tgtEnvName : String) : String :=
  "chore: promote " ++ String.intercalate ", " subjects ++ " from " ++ srcEnvName ++
    " to " ++ tgtEnvName

/-- The fresh branch name of line 210. -/
def freshBranchName (promName timestamp : String) : String :=
  "promotion/" ++ promName ++ "-" ++ timestamp

/-- Lines 175-183: a pull request counts as open exactly when the recorded
number is non-zero and appears in the freshly listed open requests. -/
def isPROpenCheck (lastNumber : Int) (prs : List PRInfo) : Bool :=
  lastNumber != 0 && prs.any (fun pr => pr.number == lastNumber)

/-- State carried through the copy loop of lines 232-311. -/
structure LoopState where
  tgt : FSState
  committed : List (FPath × String)
  headN : Nat
  promoted : List String
  commits : Nat
  obj : Promotion
  trace : List Effect

/-- The copy loop of lines 232-311: per declared operation, securely join the
paths, run CopyOperation, inspect the worktree status, and when dirty stage
everything, commit with the templated message, push immediately, record the
subject, and set the Ready condition.  Any error aborts the loop. -/
def runCopyLoop (w : ReconcileWorld) (srcFS : FSState) (sroot troot : FPath)
    (sName tName hashSeven : String) :
    List CopyOp → LoopState → LoopState × Option String
  | [], st => (st, none)
  | op :: rest, st =>
    match copyOperation srcFS st.tgt (secureJoin sroot op.source) (secureJoin troot op.target) with
    | Except.error e =>
      ({ st with trace := st.trace ++ [Effect.copyOp (secureJoin sroot op.source) (secureJoin troot op.target)] }, some e)
    | Except.ok tgt1 =>
      if tgt1.files = st.committed then
        runCopyLoop w srcFS sroot troot sName tName hashSeven rest
          { st with
            tgt := tgt1
            trace := st.trace ++ [Effect.copyOp (secureJoin sroot op.source) (secureJoin troot op.target)] }
      else
        match w.addR st.commits with
        | Except.error e =>
          ({ st with
             tgt := tgt1
             trace := st.trace ++ [Effect.copyOp (secureJoin sroot op.source) (secureJoin troot op.target), Effect.addAll] }, some e)
        | Except.ok _ =>
          match w.commitR st.commits with
          | Except.error e =>
            ({ st with
               tgt := tgt1
               trace := st.trace ++ [Effect.copyOp (secureJoin sroot op.source) (secureJoin troot op.target), Effect.addAll,
                 Effect.commit (mkCommitMsg op.name sName tName hashSeven)] }, some e)
          | Except.ok _ =>
            match w.pushR st.commits with
            | Except.error e =>
              ({ st with
                 tgt := tgt1
                 committed := tgt1.files
                 headN := st.headN + 1
                 trace := st.trace ++ [Effect.copyOp (secureJoin sroot op.source) (secureJoin troot op.target), Effect.addAll,
                   Effect.commit (mkCommitMsg op.name sName tName hashSeven), Effect.push] }, some e)
            | Except.ok _ =>
              runCopyLoop w srcFS sroot troot sName tName hashSeven rest
                { tgt := tgt1
                  committed := tgt1.files
                  headN := st.headN + 1
                  promoted := st.promoted ++ [op.name]
                  commits := st.commits + 1
                  obj := promotionReady st.obj succeededReason "Pushed new commits to PR branch"
                  trace := st.trace ++ [Effect.copyOp (secureJoin sroot op.source) (secureJoin troot op.target), Effect.addAll,
                    Effect.commit (mkCommitMsg op.name sName tName hashSeven), Effect.push] }

/-- The request synchronisation of lines 313-357: compare the pre and post
loop heads; when commits were made either edit the open request title or
create a new request against the target environment configured branch and
record its number and URL; otherwise, and when no request is open, set the
in-sync condition; finish with the steady-state requeue delay. -/
def syncPR (w : ReconcileWorld) (sName tName : String) (tref : Option String)
    (isOpen : Bool) (prNum : Int) (branch : String) (st : LoopState) : ReconcileOut :=
  if st.headN ≠ 0 then
    if isOpen then
      match w.editPRR with
      | Except.error e =>
        finishRec st.obj (st.trace ++ [Effect.prEdit prNum (mkPRTitle st.promoted sName tName)]) none (some e) false
      | Except.ok _ =>
        finishRec st.obj (st.trace ++ [Effect.prEdit prNum (mkPRTitle st.promoted sName tName)]) (some 300) none false
    else
      match tref with
      | none => finishRec st.obj st.trace none none true
      | some base =>
        match w.createPRR with
        | Except.error e =>
          finishRec st.obj (st.trace ++ [Effect.prCreate (mkPRTitle st.promoted sName tName) branch base]) none (some e) false
        | Except.ok prc =>
          finishRec
            { promotionReady st.obj succeededReason "New Pull request created successfully" with
              status := { (promotionReady st.obj succeededReason "New Pull request created successfully").status with
                lastPullRequestNumber := prc.number
                lastPullRequestURL := prc.url } }
            (st.trace ++ [Effect.prCreate (mkPRTitle st.promoted sName tName) branch base]) (some 300) none false
  else
    if isOpen then
      finishRec (promotionReady st.obj succeededReason "A pull request is open for review.")
        st.trace (some 300) none false
    else
      finishRec
        (promotionReady (promotionReady st.obj succeededReason "A pull request is open for review.")
          succeededReason "Source and target environments are in sync, nothing to promote.")
        st.trace (some 300) none false

/-- Branch acquisition and everything after it (lines 169-357), entered once
both clones and the provider repository handle succeeded. -/
def acquireAndRun (w : ReconcileWorld) (obj : Promotion) (sEnv tEnv : Environment)
    (srcRepo : SourceRepoState) (tgtTree : FSState) (prs : List PRInfo)
    (tr : List Effect) : ReconcileOut :=
  if isPROpenCheck obj.status.lastPullRequestNumber prs then
    match w.getPRR obj.status.lastPullRequestNumber with
    | Except.error e => finishRec obj (tr ++ [Effect.prGet obj.status.lastPullRequestNumber]) none (some e) false
    | Except.ok prInfo =>
      match w.fetchR with
      | Except.error e =>
        finishRec obj (tr ++ [Effect.prGet obj.status.lastPullRequestNumber, Effect.fetchRemote]) none (some e) false
      | Except.ok _ =>
        match w.checkoutOpenR with
        | Except.error e =>
          finishRec obj (tr ++ [Effect.prGet obj.status.lastPullRequestNumber, Effect.fetchRemote,
            Effect.checkoutBranch prInfo.sourceBranch false true]) none (some e) false
        | Except.ok _ =>
          match runCopyLoop w srcRepo.fs sEnv.path tEnv.path sEnv.name tEnv.name
              (firstSeven srcRepo.headHash) obj.copy
              { tgt := w.prBranchTree
                committed := w.prBranchTree.files
                headN := 0
                promoted := []
                commits := 0
                obj := obj
                trace := tr ++ [Effect.prGet obj.status.lastPullRequestNumber, Effect.fetchRemote,
                  Effect.checkoutBranch prInfo.sourceBranch false true] } with
          | (st, some e) => finishRec st.obj st.trace none (some e) false
          | (st, none) =>
            syncPR w sEnv.name tEnv.name tEnv.reference true prInfo.number prInfo.sourceBranch st
  else
    match w.checkoutNewR with
    | Except.error e =>
      finishRec obj (tr ++ [Effect.checkoutBranch (freshBranchName obj.name w.timestampStr) true false]) none (some e) false
    | Except.ok _ =>
      match runCopyLoop w srcRepo.fs sEnv.path tEnv.path sEnv.name tEnv.name
          (firstSeven srcRepo.headHash) obj.copy
          { tgt := tgtTree
            committed := tgtTree.files
            headN := 0
            promoted := []
            commits := 0
            obj := obj
            trace := tr ++ [Effect.checkoutBranch (freshBranchName obj.name w.timestampStr) true false] } with
      | (st, some e) => finishRec st.obj st.trace none (some e) false
      | (st, none) =>
        syncPR w sEnv.name tEnv.name tEnv.reference false 0
          (freshBranchName obj.name w.timestampStr) st

/-- The whole reconcile attempt, from the point where the Promotion object has
been fetched (lines 60-358).  Environment lookups whose object is missing are
swallowed by client.IgnoreNotFound; a not-ready environment exits early with
a ten second requeue and no error; every later failure aborts the attempt and
returns the error; the deferred status update runs on every path. -/
def reconcile (w : ReconcileWorld) (obj : Promotion) : ReconcileOut :=
  match w.sourceEnvR with
  | KRes.err e => finishRec obj [] none (some e) false
  | KRes.notFound => finishRec obj [] none none false
  | KRes.ok sEnv =>
    match w.targetEnvR with
    | KRes.err e => finishRec obj [] none (some e) false
    | KRes.notFound => finishRec obj [] none none false
    | KRes.ok tEnv =>
      if isReadyEnv sEnv = false then finishRec obj [] (some 10) none false
      else if isReadyEnv tEnv = false then finishRec obj [] (some 10) none false
      else
        match w.tmpSourceR with
        | Except.error e => finishRec obj [] none (some e) false
        | Except.ok _ =>
          match w.cloneSourceR with
          | Except.error e => finishRec obj [Effect.cloneSource] none (some e) false
          | Except.ok srcRepo =>
            match w.tmpTargetR with
            | Except.error e => finishRec obj [Effect.cloneSource] none (some e) false
            | Except.ok _ =>
              match w.cloneTargetR with
              | Except.error e => finishRec obj [Effect.cloneSource, Effect.cloneTarget] none (some e) false
              | Except.ok tgtTree =>
                match w.providerRepoR with
                | Except.error e =>
                  finishRec obj [Effect.cloneSource, Effect.cloneTarget, Effect.providerRepo] none (some e) false
                | Except.ok _ =>
                  match w.authR with
                  | Except.error e =>
                    finishRec obj [Effect.cloneSource, Effect.cloneTarget, Effect.providerRepo] none (some e) false
                  | Except.ok _ =>
                    match w.listPRsR with
                    | Except.error e =>
                      finishRec obj [Effect.cloneSource, Effect.cloneTarget, Effect.providerRepo,
                        Effect.providerList] none (some e) false
                    | Except.ok prs =>
                      acquireAndRun w obj sEnv tEnv srcRepo tgtTree prs
                        [Effect.cloneSource, Effect.cloneTarget, Effect.providerRepo, Effect.providerList]

/-! ## Specification-side characterisations of the copy loop -/

/-- The operations that produce commits: replay the copy semantics and keep
exactly the operations after which the worktree files differ from the
committed tree (which a commit then resynchronises).  An operation that fails
ends the selection, mirroring the aborted loop. -/
def dirtySelect (srcFS : FSState) (sroot troot : FPath) :
    List CopyOp → FSState → List (FPath × String) → List CopyOp
  | [], _, _ => []
  | op :: rest, fs, committed =>
    match copyOperation srcFS fs (secureJoin sroot op.source) (secureJoin troot op.target) with
    | Except.error _ => []
    | Except.ok fs1 =>
      if fs1.files = committed then dirtySelect srcFS sroot troot rest fs1 committed
      else op :: dirtySelect srcFS sroot troot rest fs1 fs1.files

/-- The effect trace the loop is expected to produce: one copy effect per
operation, immediately followed by stage, commit with the templated message,
and push exactly when that operation dirtied the worktree. -/
def specLoopTrace (srcFS : FSState) (sroot troot : FPath) (sName tName hashSeven : String) :
    List CopyOp → FSState → List (FPath × String) → List Effect
  | [], _, _ => []
  | op :: rest, fs, committed =>
    match copyOperation srcFS fs (secureJoin sroot op.source) (secureJoin troot op.target) with
    | Except.error _ => [Effect.copyOp (secureJoin sroot op.source) (secureJoin troot op.target)]
    | Except.ok fs1 =>
      if fs1.files = committed then
        Effect.copyOp (secureJoin sroot op.source) (secureJoin troot op.target) ::
          specLoopTrace srcFS sroot troot sName tName hashSeven rest fs1 committed
      else
        Effect.copyOp (secureJoin sroot op.source) (secureJoin troot op.target) ::
          Effect.addAll :: Effect.commit (mkCommitMsg op.name sName tName hashSeven) ::
          Effect.push ::
          specLoopTrace srcFS sroot troot sName tName hashSeven rest fs1 fs1.files

/-- A fully converged run: every operation succeeds and leaves the worktree
clean against the fixed committed tree. -/
def allCleanRun (srcFS : FSState) (sroot troot : FPath) :
    List CopyOp → FSState → List (FPath × String) → Bool
  | [], _, _ => true
  | op :: rest, fs, committed =>
    match copyOperation srcFS fs (secureJoin sroot op.source) (secureJoin troot op.target) with
    | Except.error _ => false
    | Except.ok fs1 =>
      decide (fs1.files = committed) && allCleanRun srcFS sroot troot rest fs1 committed

/-! ## Trace observations -/

/-- The commit messages of a trace, in order. -/
def commitMsgs (tr : List Effect) : List String :=
  tr.filterMap (fun e => match e with | Effect.commit m => some m | _ => none)

/-- The number of pushes in a trace. -/
def pushCnt (tr : List Effect) : Nat :=
  tr.countP (fun e => match e with | Effect.push => true | _ => false)

/-- The pull request creations of a trace: (title, head branch, base branch). -/
def prCreates (tr : List Effect) : List (String × String × String) :=
  tr.filterMap (fun e => match e with | Effect.prCreate t b ba => some (t, b, ba) | _ => none)

/-- The pull request edits of a trace: (number, title). -/
def prEdits (tr : List Effect) : List (Int × String) :=
  tr.filterMap (fun e => match e with | Effect.prEdit n t => some (n, t) | _ => none)

/-- The clone attempts of a trace. -/
def cloneCnt (tr : List Effect) : Nat :=
  tr.countP (fun e => match e with
    | Effect.cloneSource => true | Effect.cloneTarget => true | _ => false)

/-- The provider API calls of a trace. -/
def providerCnt (tr : List Effect) : Nat :=
  tr.countP (fun e => match e with
    | Effect.providerRepo => true | Effect.providerList => true | Effect.prGet _ => true
    | Effect.prCreate _ _ _ => true | Effect.prEdit _ _ => true | _ => false)

/-- The copy operations attempted by a trace: (resolved source, resolved target). -/
def copyPairs (tr : List Effect) : List (FPath × FPath) :=
  tr.filterMap (fun e => match e with | Effect.copyOp s t => some (s, t) | _ => none)

/-- The non-status projection of a Promotion: everything the reconcile must
leave untouched. -/
def promSpecView (p : Promotion) : String × Int × String × String × List CopyOp × String :=
  (p.name, p.generation, p.sourceEnvironmentRef, p.targetEnvironmentRef, p.copy, p.strategy)

/-- No condition with status False was introduced: every False condition of
the new list already appears in the old one. -/
def noNewFalse (old new : List Condition) : Prop :=
  ∀ c, c ∈ new → c.status = CStatus.condFalse → c ∈ old

/-- Invariant between two loop states: the object is only ever rewritten by
Ready-condition updates (so the non-status view, the recorded pull request
fields, and the absence of new False conditions are preserved) and the trace
only grows by effects that are not provider request calls or clones. -/
def loopInv (st st1 : LoopState) : Prop :=
  promSpecView st1.obj = promSpecView st.obj ∧
  noNewFalse st.obj.status.conditions st1.obj.status.conditions ∧
  st1.obj.status.lastPullRequestNumber = st.obj.status.lastPullRequestNumber ∧
  st1.obj.status.lastPullRequestURL = st.obj.status.lastPullRequestURL ∧
  prCreates st1.trace = prCreates st.trace ∧
  prEdits st1.trace = prEdits st.trace ∧
  cloneCnt st1.trace = cloneCnt st.trace


/-! ## Concrete example objects and worlds used to exercise the model -/

/-- A Ready condition with status True. -/
def condReadyTrue : Condition :=
  { ctype := "Ready", status := CStatus.condTrue, reason := "ok", message := "ready" }

/-- A ready source environment rooted at envs/dev. -/
def sEnvC : Environment :=
  { name := "dev", path := ["envs", "dev"], reference := some "main", secretRef := none
    apiTokenSecretRef := none, gitProvider := "github", conditions := [condReadyTrue] }

/-- A ready target environment rooted at envs/prod. -/
def tEnvC : Environment :=
  { name := "prod", path := ["envs", "prod"], reference := some "main", secretRef := none
    apiTokenSecretRef := some "github-api-token", gitProvider := "github"
    conditions := [condReadyTrue] }

/-- A source environment with no conditions: never ready. -/
def sEnvNotReadyC : Environment :=
  { name := "dev", path := ["envs", "dev"], reference := some "main", secretRef := none
    apiTokenSecretRef := none, gitProvider := "github", conditions := [] }

/-- The cloned source repository. -/
def srcRepoC : SourceRepoState :=
  { headHash := "0123456789abcdef0123456789abcdef01234567"
    fs := { files := [(["envs", "dev", "version.txt"], "v2")], dirs := [] } }

/-- A target clone already converged with the source. -/
def tgtTreeCleanC : FSState :=
  { files := [(["envs", "prod", "version.txt"], "v2")], dirs := [] }

/-- A target clone that still carries the old content. -/
def tgtTreeDirtyC : FSState :=
  { files := [(["envs", "prod", "version.txt"], "v1")], dirs := [] }

/-- A promotion with a single copy operation and no recorded pull request. -/
def objC : Promotion :=
  { name := "promo", generation := 3, sourceEnvironmentRef := "dev"
    targetEnvironmentRef := "prod"
    copy := [{ name := "Application Version", source := "version.txt", target := "version.txt" }]
    strategy := "pull-request"
    status := { observedGeneration := 0, conditions := [], lastPullRequestURL := ""
                lastPullRequestNumber := 0 } }

/-- The pull request the provider returns on creation. -/
def prC : PRInfo :=
  { number := 7, url := "https://github.com/o/r/pull/7"
    sourceBranch := "promotion/promo-2023-01-01-00-00-00" }

/-- A world in which every external interaction succeeds and the target is
already converged. -/
def worldBase : ReconcileWorld :=
  { sourceEnvR := KRes.ok sEnvC, targetEnvR := KRes.ok tEnvC
    tmpSourceR := Except.ok (), cloneSourceR := Except.ok srcRepoC
    tmpTargetR := Except.ok (), cloneTargetR := Except.ok tgtTreeCleanC
    providerRepoR := Except.ok (), authR := Except.ok ()
    listPRsR := Except.ok [], getPRR := fun _ => Except.error "not found"
    fetchR := Except.ok (), checkoutOpenR := Except.ok (), checkoutNewR := Except.ok ()
    prBranchTree := tgtTreeCleanC, timestampStr := "2023-01-01-00-00-00"
    addR := fun _ => Except.ok (), commitR := fun _ => Except.ok ()
    pushR := fun _ => Except.ok (), editPRR := Except.ok (), createPRR := Except.ok prC }

/-- The same world with a target clone that still needs the promotion. -/
def worldDirty : ReconcileWorld :=
  { worldBase with cloneTargetR := Except.ok tgtTreeDirtyC }

/-- The same world with a failing source clone. -/
def worldCloneFail : ReconcileWorld :=
  { worldBase with cloneSourceR := Except.error "clone failed" }

/-- The base world with a source environment that is not ready. -/
def worldWait : ReconcileWorld :=
  { worldBase with sourceEnvR := KRes.ok sEnvNotReadyC }

/-! ## Lemmas about conditions -/

theorem find_map_replace (conds : List Condition) (c : Condition)
    (h : conds.any (fun x => x.ctype == c.ctype) = true) :
    List.find? (fun x => x.ctype == c.ctype)
      (conds.map (fun x => if x.ctype == c.ctype then c else x)) = some c := by
  induction conds with
  | nil => simp at h
  | cons x t ih =>
    by_cases hx : (x.ctype == c.ctype) = true
    · simp only [List.map_cons, hx, if_true]
      exact List.find?_cons_of_pos _ (by simp)
    · simp only [List.any_cons, hx, Bool.false_or] at h
      simp only [List.map_cons, hx, if_false, Bool.false_eq_true]
      rw [List.find?_cons_of_neg _ (by simp [hx])]
      exact ih h

theorem find_append_new (conds : List Condition) (c : Condition)
    (h : conds.any (fun x => x.ctype == c.ctype) = false) :
    List.find? (fun x => x.ctype == c.ctype) (conds ++ [c]) = some c := by
  induction conds with
  | nil => simp
  | cons x t ih =>
    simp only [List.any_cons, Bool.or_eq_false_iff] at h
    simp only [List.cons_append]
    rw [List.find?_cons_of_neg _ (by simp [h.1])]
    exact ih h.2

theorem findCondition_setStatusCondition (conds : List Condition) (c : Condition) :
    findCondition (setStatusCondition conds c) c.ctype = some c := by
  unfold findCondition setStatusCondition
  by_cases hA : conds.any (fun x => x.ctype == c.ctype) = true
  · simp only [hA, if_true]
    exact find_map_replace conds c hA
  · simp only [Bool.not_eq_true] at hA
    simp only [hA, Bool.false_eq_true, if_false]
    exact find_append_new conds c hA

theorem promotionReadyMessage_promotionReady (p : Promotion) (r m : String) :
    promotionReadyMessage (promotionReady p r m) = m := by
  unfold promotionReadyMessage promotionReady
  have h := findCondition_setStatusCondition p.status.conditions
    { ctype := readyCondition, status := CStatus.condTrue, reason := r, message := m }
  simp only at h
  simp only [h]
  simp

theorem noNewFalse_setStatusCondition (conds : List Condition) (c : Condition)
    (hc : c.status ≠ CStatus.condFalse) :
    noNewFalse conds (setStatusCondition conds c) := by
  intro x hx hfalse
  unfold setStatusCondition at hx
  by_cases hA : conds.any (fun y => y.ctype == c.ctype) = true
  · simp only [hA, if_true] at hx
    rcases List.mem_map.mp hx with ⟨y, hy, he⟩
    by_cases hy2 : (y.ctype == c.ctype) = true
    · rw [if_pos hy2] at he
      exact absurd (he ▸ hfalse) hc
    · rw [if_neg hy2] at he
      exact he ▸ hy
  · simp only [Bool.not_eq_true] at hA
    simp only [hA, Bool.false_eq_true, if_false, List.mem_append, List.mem_singleton] at hx
    cases hx with
    | inl h => exact h
    | inr h => exact absurd (h ▸ hfalse) hc

theorem noNewFalse_rfl (conds : List Condition) : noNewFalse conds conds :=
  fun _ hx _ => hx

theorem noNewFalse_trans (a b c : List Condition)
    (h1 : noNewFalse a b) (h2 : noNewFalse b c) : noNewFalse a c :=
  fun x hx hf => h1 x (h2 x hx hf) hf

theorem noNewFalse_promotionReady (p : Promotion) (r m : String) :
    noNewFalse p.status.conditions (promotionReady p r m).status.conditions := by
  unfold promotionReady
  exact noNewFalse_setStatusCondition _ _ (by intro h; cases h)

theorem promSpecView_promotionReady (p : Promotion) (r m : String) :
    promSpecView (promotionReady p r m) = promSpecView p := rfl

theorem lastNumber_promotionReady (p : Promotion) (r m : String) :
    (promotionReady p r m).status.lastPullRequestNumber = p.status.lastPullRequestNumber := rfl

theorem lastURL_promotionReady (p : Promotion) (r m : String) :
    (promotionReady p r m).status.lastPullRequestURL = p.status.lastPullRequestURL := rfl

/-! ## Lemmas relating the copy loop to its specification-side functions -/

theorem commitMsgs_append (a b : List Effect) :
    commitMsgs (a ++ b) = commitMsgs a ++ commitMsgs b := by
  unfold commitMsgs; exact List.filterMap_append a b _

theorem pushCnt_append (a b : List Effect) :
    pushCnt (a ++ b) = pushCnt a + pushCnt b := by
  unfold pushCnt; exact List.countP_append _ a b

theorem prCreates_append (a b : List Effect) :
    prCreates (a ++ b) = prCreates a ++ prCreates b := by
  unfold prCreates; exact List.filterMap_append a b _

theorem prEdits_append (a b : List Effect) :
    prEdits (a ++ b) = prEdits a ++ prEdits b := by
  unfold prEdits; exact List.filterMap_append a b _

theorem cloneCnt_append (a b : List Effect) :
    cloneCnt (a ++ b) = cloneCnt a + cloneCnt b := by
  unfold cloneCnt; exact List.countP_append _ a b

theorem providerCnt_append (a b : List Effect) :
    providerCnt (a ++ b) = providerCnt a + providerCnt b := by
  unfold providerCnt; exact List.countP_append _ a b

theorem copyPairs_append (a b : List Effect) :
    copyPairs (a ++ b) = copyPairs a ++ copyPairs b := by
  unfold copyPairs; exact List.filterMap_append a b _

theorem commitMsgs_specLoopTrace (srcFS : FSState) (sr tr : FPath) (sN tN h7 : String) :
    ∀ (ops : List CopyOp) (fs : FSState) (committed : List (FPath × String)),
      commitMsgs (specLoopTrace srcFS sr tr sN tN h7 ops fs committed)
        = (dirtySelect srcFS sr tr ops fs committed).map
            (fun op => mkCommitMsg op.name sN tN h7) := by
  intro ops
  induction ops with
  | nil => intro fs committed; simp [specLoopTrace, dirtySelect, commitMsgs]
  | cons op rest ih =>
    intro fs committed
    simp only [specLoopTrace, dirtySelect]
    cases hcp : copyOperation srcFS fs (secureJoin sr op.source) (secureJoin tr op.target) with
    | error e => simp [commitMsgs]
    | ok fs1 =>
      by_cases hcl : fs1.files = committed
      · simp only [if_pos hcl, commitMsgs, List.filterMap_cons]
        exact ih fs1 committed
      · simp only [if_neg hcl, commitMsgs, List.filterMap_cons, List.map_cons]
        simpa [commitMsgs] using ih fs1 fs1.files

theorem pushCnt_specLoopTrace (srcFS : FSState) (sr tr : FPath) (sN tN h7 : String) :
    ∀ (ops : List CopyOp) (fs : FSState) (committed : List (FPath × String)),
      pushCnt (specLoopTrace srcFS sr tr sN tN h7 ops fs committed)
        = (dirtySelect srcFS sr tr ops fs committed).length := by
  intro ops
  induction ops with
  | nil => intro fs committed; simp [specLoopTrace, dirtySelect, pushCnt]
  | cons op rest ih =>
    intro fs committed
    simp only [specLoopTrace, dirtySelect]
    cases hcp : copyOperation srcFS fs (secureJoin sr op.source) (secureJoin tr op.target) with
    | error e => simp [pushCnt]
    | ok fs1 =>
      by_cases hcl : fs1.files = committed
      · simp only [if_pos hcl, pushCnt, List.countP_cons]
        simpa [pushCnt] using ih fs1 committed
      · simp only [if_neg hcl, pushCnt, List.countP_cons, List.length_cons]
        have := ih fs1 fs1.files
        simp only [pushCnt] at this
        simp [this]

theorem prCreates_specLoopTrace (srcFS : FSState) (sr tr : FPath) (sN tN h7 : String) :
    ∀ (ops : List CopyOp) (fs : FSState) (committed : List (FPath × String)),
      prCreates (specLoopTrace srcFS sr tr sN tN h7 ops fs committed) = [] := by
  intro ops
  induction ops with
  | nil => intro fs committed; simp [specLoopTrace, prCreates]
  | cons op rest ih =>
    intro fs committed
    simp only [specLoopTrace]
    cases hcp : copyOperation srcFS fs (secureJoin sr op.source) (secureJoin tr op.target) with
    | error e => simp [prCreates]
    | ok fs1 =>
      by_cases hcl : fs1.files = committed
      · simp only [if_pos hcl, prCreates, List.filterMap_cons]
        exact ih fs1 committed
      · simp only [if_neg hcl, prCreates, List.filterMap_cons]
        simpa [prCreates] using ih fs1 fs1.files

theorem prEdits_specLoopTrace (srcFS : FSState) (sr tr : FPath) (sN tN h7 : String) :
    ∀ (ops : List CopyOp) (fs : FSState) (committed : List (FPath × String)),
      prEdits (specLoopTrace srcFS sr tr sN tN h7 ops fs committed) = [] := by
  intro ops
  induction ops with
  | nil => intro fs committed; simp [specLoopTrace, prEdits]
  | cons op rest ih =>
    intro fs committed
    simp only [specLoopTrace]
    cases hcp : copyOperation srcFS fs (secureJoin sr op.source) (secureJoin tr op.target) with
    | error e => simp [prEdits]
    | ok fs1 =>
      by_cases hcl : fs1.files = committed
      · simp only [if_pos hcl, prEdits, List.filterMap_cons]
        exact ih fs1 committed
      · simp only [if_neg hcl, prEdits, List.filterMap_cons]
        simpa [prEdits] using ih fs1 fs1.files

theorem dirtySelect_sublist (srcFS : FSState) (sr tr : FPath) :
    ∀ (ops : List CopyOp) (fs : FSState) (committed : List (FPath × String)),
      (dirtySelect srcFS sr tr ops fs committed).Sublist ops := by
  intro ops
  induction ops with
  | nil => intro fs committed; simp [dirtySelect]
  | cons op rest ih =>
    intro fs committed
    simp only [dirtySelect]
    cases hcp : copyOperation srcFS fs (secureJoin sr op.source) (secureJoin tr op.target) with
    | error e => exact List.nil_sublist _
    | ok fs1 =>
      by_cases hcl : fs1.files = committed
      · simp only [if_pos hcl]
        exact List.Sublist.cons op (ih fs1 committed)
      · simp only [if_neg hcl]
        exact List.Sublist.cons₂ op (ih fs1 fs1.files)

theorem loopInv_rfl (st : LoopState) : loopInv st st :=
  ⟨rfl, noNewFalse_rfl _, rfl, rfl, rfl, rfl, rfl⟩

theorem loopInv_trans (a b c : LoopState) (h1 : loopInv a b) (h2 : loopInv b c) :
    loopInv a c := by
  obtain ⟨p1, n1, l1, u1, c1, e1, k1⟩ := h1
  obtain ⟨p2, n2, l2, u2, c2, e2, k2⟩ := h2
  exact ⟨p2.trans p1, noNewFalse_trans _ _ _ n1 n2, l2.trans l1, u2.trans u1,
    c2.trans c1, e2.trans e1, k2.trans k1⟩

theorem loopInv_step (st st2 : LoopState)
    (hobj : st2.obj = st.obj ∨ ∃ r m, st2.obj = promotionReady st.obj r m)
    (effs : List Effect)
    (htr : st2.trace = st.trace ++ effs)
    (hc : prCreates effs = []) (he : prEdits effs = []) (hk : cloneCnt effs = 0) :
    loopInv st st2 := by
  have hobjs : promSpecView st2.obj = promSpecView st.obj ∧
      noNewFalse st.obj.status.conditions st2.obj.status.conditions ∧
      st2.obj.status.lastPullRequestNumber = st.obj.status.lastPullRequestNumber ∧
      st2.obj.status.lastPullRequestURL = st.obj.status.lastPullRequestURL := by
    cases hobj with
    | inl h => rw [h]; exact ⟨rfl, noNewFalse_rfl _, rfl, rfl⟩
    | inr h =>
      obtain ⟨r, m, h⟩ := h
      rw [h]
      exact ⟨promSpecView_promotionReady _ _ _, noNewFalse_promotionReady _ _ _,
        lastNumber_promotionReady _ _ _, lastURL_promotionReady _ _ _⟩
  refine ⟨hobjs.1, hobjs.2.1, hobjs.2.2.1, hobjs.2.2.2, ?_, ?_, ?_⟩
  · rw [htr, prCreates_append, hc, List.append_nil]
  · rw [htr, prEdits_append, he, List.append_nil]
  · rw [htr, cloneCnt_append, hk]
    simp

theorem runCopyLoop_loopInv (w : ReconcileWorld) (srcFS : FSState) (sr tr : FPath)
    (sN tN h7 : String) :
    ∀ (ops : List CopyOp) (st : LoopState),
      loopInv st (runCopyLoop w srcFS sr tr sN tN h7 ops st).1 := by
  intro ops
  induction ops with
  | nil => intro st; exact loopInv_rfl st
  | cons op rest ih =>
    intro st
    simp only [runCopyLoop]
    cases hcp : copyOperation srcFS st.tgt (secureJoin sr op.source) (secureJoin tr op.target) with
    | error e =>
      exact loopInv_step _ _ (Or.inl rfl) _ rfl (by simp [prCreates]) (by simp [prEdits])
        (by simp [cloneCnt])
    | ok tgt1 =>
      by_cases hcl : tgt1.files = st.committed
      · simp only [if_pos hcl]
        refine loopInv_trans _ _ _ ?_ (ih _)
        exact loopInv_step _ _ (Or.inl rfl) _ rfl (by simp [prCreates]) (by simp [prEdits])
          (by simp [cloneCnt])
      · simp only [if_neg hcl]
        cases hadd : w.addR st.commits with
        | error e =>
          exact loopInv_step _ _ (Or.inl rfl) _ rfl (by simp [prCreates]) (by simp [prEdits])
            (by simp [cloneCnt])
        | ok u =>
          cases hcom : w.commitR st.commits with
          | error e =>
            exact loopInv_step _ _ (Or.inl rfl) _ rfl (by simp [prCreates]) (by simp [prEdits])
              (by simp [cloneCnt])
          | ok u2 =>
            cases hpush : w.pushR st.commits with
            | error e =>
              exact loopInv_step _ _ (Or.inl rfl) _ rfl (by simp [prCreates]) (by simp [prEdits])
                (by simp [cloneCnt])
            | ok u3 =>
              refine loopInv_trans _ _ _ ?_ (ih _)
              exact loopInv_step _ _ (Or.inr ⟨_, _, rfl⟩) _ rfl (by simp [prCreates])
                (by simp [prEdits]) (by simp [cloneCnt])

theorem runCopyLoop_ok (w : ReconcileWorld) (srcFS : FSState) (sr tr : FPath)
    (sN tN h7 : String) :
    ∀ (ops : List CopyOp) (st st1 : LoopState),
      runCopyLoop w srcFS sr tr sN tN h7 ops st = (st1, none) →
      st1.trace = st.trace ++ specLoopTrace srcFS sr tr sN tN h7 ops st.tgt st.committed ∧
      st1.promoted = st.promoted ++
        (dirtySelect srcFS sr tr ops st.tgt st.committed).map (fun o => o.name) ∧
      st1.headN = st.headN + (dirtySelect srcFS sr tr ops st.tgt st.committed).length ∧
      st1.commits = st.commits + (dirtySelect srcFS sr tr ops st.tgt st.committed).length ∧
      (dirtySelect srcFS sr tr ops st.tgt st.committed = [] → st1.obj = st.obj) := by
  intro ops
  induction ops with
  | nil =>
    intro st st1 h
    simp only [runCopyLoop, Prod.mk.injEq] at h
    obtain ⟨rfl, -⟩ := h
    simp [specLoopTrace, dirtySelect]
  | cons op rest ih =>
    intro st st1 h
    simp only [runCopyLoop] at h
    cases hcp : copyOperation srcFS st.tgt (secureJoin sr op.source) (secureJoin tr op.target) with
    | error e =>
      rw [hcp] at h
      simp at h
    | ok tgt1 =>
      rw [hcp] at h
      simp only [specLoopTrace, dirtySelect, hcp]
      by_cases hcl : tgt1.files = st.committed
      · simp only [if_pos hcl] at h ⊢
        obtain ⟨h1, h2, h3, h4, h5⟩ := ih _ _ h
        simp only at h1 h2 h3 h4 h5
        refine ⟨?_, h2, h3, h4, h5⟩
        rw [h1]
        simp [List.append_assoc]
      · simp only [if_neg hcl] at h ⊢
        cases hadd : w.addR st.commits with
        | error e => rw [hadd] at h; simp at h
        | ok u =>
          rw [hadd] at h
          cases hcom : w.commitR st.commits with
          | error e => rw [hcom] at h; simp at h
          | ok u2 =>
            rw [hcom] at h
            cases hpush : w.pushR st.commits with
            | error e => rw [hpush] at h; simp at h
            | ok u3 =>
              rw [hpush] at h
              obtain ⟨h1, h2, h3, h4, h5⟩ := ih _ _ h
              simp only at h1 h2 h3 h4 h5
              refine ⟨?_, ?_, ?_, ?_, ?_⟩
              · rw [h1]; simp [List.append_assoc]
              · rw [h2]; simp [List.append_assoc]
              · rw [h3]; simp [List.length_cons]; omega
              · rw [h4]; simp [List.length_cons]; omega
              · intro hx; cases hx

theorem runCopyLoop_clean (w : ReconcileWorld) (srcFS : FSState) (sr tr : FPath)
    (sN tN h7 : String) :
    ∀ (ops : List CopyOp) (st : LoopState),
      allCleanRun srcFS sr tr ops st.tgt st.committed = true →
      (runCopyLoop w srcFS sr tr sN tN h7 ops st).2 = none ∧
      dirtySelect srcFS sr tr ops st.tgt st.committed = [] := by
  intro ops
  induction ops with
  | nil => intro st hclean; simp [runCopyLoop, dirtySelect]
  | cons op rest ih =>
    intro st hclean
    simp only [allCleanRun] at hclean
    cases hcp : copyOperation srcFS st.tgt (secureJoin sr op.source) (secureJoin tr op.target) with
    | error e => rw [hcp] at hclean; simp at hclean
    | ok tgt1 =>
      rw [hcp] at hclean
      simp only [Bool.and_eq_true, decide_eq_true_eq] at hclean
      obtain ⟨hfiles, hrest⟩ := hclean
      simp only [runCopyLoop, dirtySelect, hcp, if_pos hfiles]
      exact ih _ hrest

theorem runCopyLoop_copyPairs (w : ReconcileWorld) (srcFS : FSState) (sr tr : FPath)
    (sN tN h7 : String) :
    ∀ (ops : List CopyOp) (st st1 : LoopState),
      runCopyLoop w srcFS sr tr sN tN h7 ops st = (st1, none) →
      copyPairs st1.trace = copyPairs st.trace ++
        ops.map (fun o => (secureJoin sr o.source, secureJoin tr o.target)) := by
  intro ops
  induction ops with
  | nil =>
    intro st st1 h
    simp only [runCopyLoop, Prod.mk.injEq] at h
    obtain ⟨rfl, -⟩ := h
    simp
  | cons op rest ih =>
    intro st st1 h
    simp only [runCopyLoop] at h
    cases hcp : copyOperation srcFS st.tgt (secureJoin sr op.source) (secureJoin tr op.target) with
    | error e => rw [hcp] at h; simp at h
    | ok tgt1 =>
      rw [hcp] at h
      by_cases hcl : tgt1.files = st.committed
      · simp only [if_pos hcl] at h
        have := ih _ _ h
        simp only at this
        rw [this, copyPairs_append]
        simp [copyPairs, List.append_assoc]
      · simp only [if_neg hcl] at h
        cases hadd : w.addR st.commits with
        | error e => rw [hadd] at h; simp at h
        | ok u =>
          rw [hadd] at h
          cases hcom : w.commitR st.commits with
          | error e => rw [hcom] at h; simp at h
          | ok u2 =>
            rw [hcom] at h
            cases hpush : w.pushR st.commits with
            | error e => rw [hpush] at h; simp at h
            | ok u3 =>
              rw [hpush] at h
              have := ih _ _ h
              simp only at this
              rw [this, copyPairs_append]
              simp [copyPairs, List.append_assoc]

/-! ## Small computation lemmas about the finishing step -/

theorem finishRec_err (o : Promotion) (tr : List Effect) (req : Option Nat)
    (err : Option String) (pan : Bool) : (finishRec o tr req err pan).err = err := rfl

theorem finishRec_requeue (o : Promotion) (tr : List Effect) (req : Option Nat)
    (err : Option String) (pan : Bool) : (finishRec o tr req err pan).requeueAfter = req := rfl

theorem finishRec_panicked (o : Promotion) (tr : List Effect) (req : Option Nat)
    (err : Option String) (pan : Bool) : (finishRec o tr req err pan).panicked = pan := rfl

theorem finishRec_trace (o : Promotion) (tr : List Effect) (req : Option Nat)
    (err : Option String) (pan : Bool) :
    (finishRec o tr req err pan).trace = tr ++ [Effect.statusUpdate] := rfl

theorem finishRec_conditions (o : Promotion) (tr : List Effect) (req : Option Nat)
    (err : Option String) (pan : Bool) :
    (finishRec o tr req err pan).obj.status.conditions = o.status.conditions := rfl

theorem finishRec_lastNumber (o : Promotion) (tr : List Effect) (req : Option Nat)
    (err : Option String) (pan : Bool) :
    (finishRec o tr req err pan).obj.status.lastPullRequestNumber =
      o.status.lastPullRequestNumber := rfl

theorem finishRec_lastURL (o : Promotion) (tr : List Effect) (req : Option Nat)
    (err : Option String) (pan : Bool) :
    (finishRec o tr req err pan).obj.status.lastPullRequestURL =
      o.status.lastPullRequestURL := rfl

theorem promSpecView_finishRec (o : Promotion) (tr : List Effect) (req : Option Nat)
    (err : Option String) (pan : Bool) :
    promSpecView (finishRec o tr req err pan).obj = promSpecView o := rfl

theorem promotionReadyMessage_finishRec (o : Promotion) (tr : List Effect) (req : Option Nat)
    (err : Option String) (pan : Bool) :
    promotionReadyMessage (finishRec o tr req err pan).obj = promotionReadyMessage o := rfl

/-- Under ready environments and successful provisioning the reconcile reaches
branch acquisition with the four provisioning effects already traced. -/
theorem reconcile_entry (w : ReconcileWorld) (obj : Promotion) (sEnv tEnv : Environment)
    (srcRepo : SourceRepoState) (tgtTree : FSState) (prs : List PRInfo)
    (hS : w.sourceEnvR = KRes.ok sEnv) (hT : w.targetEnvR = KRes.ok tEnv)
    (hRS : isReadyEnv sEnv = true) (hRT : isReadyEnv tEnv = true)
    (h1 : w.tmpSourceR = Except.ok ()) (h2 : w.cloneSourceR = Except.ok srcRepo)
    (h3 : w.tmpTargetR = Except.ok ()) (h4 : w.cloneTargetR = Except.ok tgtTree)
    (h5 : w.providerRepoR = Except.ok ()) (h6 : w.authR = Except.ok ())
    (h7 : w.listPRsR = Except.ok prs) :
    reconcile w obj = acquireAndRun w obj sEnv tEnv srcRepo tgtTree prs
      [Effect.cloneSource, Effect.cloneTarget, Effect.providerRepo, Effect.providerList] := by
  unfold reconcile
  simp only [hS, hT, hRS, hRT, h1, h2, h3, h4, h5, h6, h7, Bool.true_eq_false, if_false]

/-! ## Frame lemmas: the reconcile only rewrites status, and never records a
False condition -/

theorem syncPR_frame (w : ReconcileWorld) (sName tName : String) (tref : Option String)
    (isOpen : Bool) (prNum : Int) (branch : String) (st : LoopState) :
    promSpecView (syncPR w sName tName tref isOpen prNum branch st).obj = promSpecView st.obj ∧
    noNewFalse st.obj.status.conditions
      (syncPR w sName tName tref isOpen prNum branch st).obj.status.conditions := by
  unfold syncPR
  by_cases hh : st.headN ≠ 0
  · simp only [if_pos hh]
    cases isOpen with
    | true =>
      simp only [if_true]
      cases hedit : w.editPRR with
      | error e => exact ⟨rfl, noNewFalse_rfl _⟩
      | ok u => exact ⟨rfl, noNewFalse_rfl _⟩
    | false =>
      simp only [Bool.false_eq_true, if_false]
      cases tref with
      | none => exact ⟨rfl, noNewFalse_rfl _⟩
      | some base =>
        cases hcreate : w.createPRR with
        | error e => exact ⟨rfl, noNewFalse_rfl _⟩
        | ok prc =>
          constructor
          · rfl
          · rw [finishRec_conditions]
            exact noNewFalse_promotionReady st.obj succeededReason
              "New Pull request created successfully"
  · simp only [if_neg hh]
    cases isOpen with
    | true =>
      simp only [if_true]
      constructor
      · rfl
      · rw [finishRec_conditions]
        exact noNewFalse_promotionReady st.obj succeededReason "A pull request is open for review."
    | false =>
      simp only [Bool.false_eq_true, if_false]
      constructor
      · rfl
      · rw [finishRec_conditions]
        exact noNewFalse_trans _ _ _
          (noNewFalse_promotionReady st.obj succeededReason "A pull request is open for review.")
          (noNewFalse_promotionReady _ succeededReason
            "Source and target environments are in sync, nothing to promote.")


theorem runCopyLoop_frame_eq (w : ReconcileWorld) (srcFS : FSState) (sr tr : FPath)
    (sN tN h7 : String) (ops : List CopyOp) (st0 st1 : LoopState) (eq1 : Option String)
    (h : runCopyLoop w srcFS sr tr sN tN h7 ops st0 = (st1, eq1)) :
    promSpecView st1.obj = promSpecView st0.obj ∧
    noNewFalse st0.obj.status.conditions st1.obj.status.conditions := by
  have hInv := runCopyLoop_loopInv w srcFS sr tr sN tN h7 ops st0
  rw [h] at hInv
  exact ⟨hInv.1, hInv.2.1⟩

theorem acquireAndRun_frame (w : ReconcileWorld) (obj : Promotion) (sEnv tEnv : Environment)
    (srcRepo : SourceRepoState) (tgtTree : FSState) (prs : List PRInfo) (tr : List Effect) :
    promSpecView (acquireAndRun w obj sEnv tEnv srcRepo tgtTree prs tr).obj = promSpecView obj ∧
    noNewFalse obj.status.conditions
      (acquireAndRun w obj sEnv tEnv srcRepo tgtTree prs tr).obj.status.conditions := by
  unfold acquireAndRun
  split
  · split
    · exact ⟨rfl, noNewFalse_rfl _⟩
    next prInfo heq0 =>
      split
      · exact ⟨rfl, noNewFalse_rfl _⟩
      · split
        · exact ⟨rfl, noNewFalse_rfl _⟩
        · split
          next st1 e1 heq =>
            have hInv := runCopyLoop_frame_eq _ _ _ _ _ _ _ _ _ _ _ heq
            exact ⟨hInv.1, hInv.2⟩
          next st1 heq =>
            have hInv := runCopyLoop_frame_eq _ _ _ _ _ _ _ _ _ _ _ heq
            have hs := syncPR_frame w sEnv.name tEnv.name tEnv.reference true
              prInfo.number prInfo.sourceBranch st1
            exact ⟨hs.1.trans hInv.1, noNewFalse_trans _ _ _ hInv.2 hs.2⟩
  · split
    · exact ⟨rfl, noNewFalse_rfl _⟩
    · split
      next st1 e1 heq =>
        have hInv := runCopyLoop_frame_eq _ _ _ _ _ _ _ _ _ _ _ heq
        exact ⟨hInv.1, hInv.2⟩
      next st1 heq =>
        have hInv := runCopyLoop_frame_eq _ _ _ _ _ _ _ _ _ _ _ heq
        have hs := syncPR_frame w sEnv.name tEnv.name tEnv.reference false 0
          (freshBranchName obj.name w.timestampStr) st1
        exact ⟨hs.1.trans hInv.1, noNewFalse_trans _ _ _ hInv.2 hs.2⟩

theorem reconcile_frame (w : ReconcileWorld) (obj : Promotion) :
    promSpecView (reconcile w obj).obj = promSpecView obj ∧
    noNewFalse obj.status.conditions (reconcile w obj).obj.status.conditions := by
  unfold reconcile
  split
  · exact ⟨rfl, noNewFalse_rfl _⟩
  · exact ⟨rfl, noNewFalse_rfl _⟩
  · split
    · exact ⟨rfl, noNewFalse_rfl _⟩
    · exact ⟨rfl, noNewFalse_rfl _⟩
    · split
      · exact ⟨rfl, noNewFalse_rfl _⟩
      · split
        · exact ⟨rfl, noNewFalse_rfl _⟩
        · split
          · exact ⟨rfl, noNewFalse_rfl _⟩
          · split
            · exact ⟨rfl, noNewFalse_rfl _⟩
            · split
              · exact ⟨rfl, noNewFalse_rfl _⟩
              · split
                · exact ⟨rfl, noNewFalse_rfl _⟩
                · split
                  · exact ⟨rfl, noNewFalse_rfl _⟩
                  · split
                    · exact ⟨rfl, noNewFalse_rfl _⟩
                    · split
                      · exact ⟨rfl, noNewFalse_rfl _⟩
                      · exact acquireAndRun_frame w obj _ _ _ _ _ _

/-! ## Confinement of SecureJoin -/

theorem secureJoinStep_good (acc : List String) (c : String)
    (h : ∀ x ∈ acc, x ≠ ".." ∧ x ≠ "." ∧ x ≠ "") :
    ∀ x ∈ secureJoinStep acc c, x ≠ ".." ∧ x ≠ "." ∧ x ≠ "" := by
  intro x hx
  unfold secureJoinStep at hx
  split at hx
  · exact h x hx
  · split at hx
    · exact h x (List.dropLast_subset acc hx)
    · next h1 h2 =>
      rcases List.mem_append.mp hx with h3 | h3
      · exact h x h3
      · have hxc : x = c := by simpa using h3
        subst hxc
        simp only [Bool.or_eq_true, decide_eq_true_eq] at h1
        push_neg at h1
        exact ⟨h2, h1.2, h1.1⟩

theorem foldl_secureJoinStep_good :
    ∀ (comps : List String) (acc : List String),
      (∀ x ∈ acc, x ≠ ".." ∧ x ≠ "." ∧ x ≠ "") →
      ∀ x ∈ List.foldl secureJoinStep acc comps, x ≠ ".." ∧ x ≠ "." ∧ x ≠ "" := by
  intro comps
  induction comps with
  | nil => intro acc h; simpa using h
  | cons c rest ih =>
    intro acc h
    simp only [List.foldl_cons]
    exact ih (secureJoinStep acc c) (secureJoinStep_good acc c h)

/-! ## Lemmas on the first-occurrence replacement -/

theorem startsWithL_self_append : ∀ (pat t : List Char), startsWithL pat (pat ++ t) = true := by
  intro pat
  induction pat with
  | nil => intro t; rfl
  | cons p ps ih => intro t; simp [startsWithL, ih]

theorem startsWithL_decompose :
    ∀ (pat s : List Char), startsWithL pat s = true → ∃ t, s = pat ++ t := by
  intro pat
  induction pat with
  | nil => intro s _; exact ⟨s, rfl⟩
  | cons p ps ih =>
    intro s h
    cases s with
    | nil => simp [startsWithL] at h
    | cons c cs =>
      simp only [startsWithL, Bool.and_eq_true, decide_eq_true_eq] at h
      obtain ⟨rfl, h2⟩ := h
      obtain ⟨t, rfl⟩ := ih cs h2
      exact ⟨t, rfl⟩

theorem replaceFirst_at_start (pat t new : List Char) :
    replaceFirst (pat ++ t) pat new = new ++ t := by
  unfold replaceFirst
  rw [startsWithL_self_append, if_pos rfl]
  rw [List.drop_left]

theorem replaceFirst_comSlash :
    ∀ (m r : List Char), '/' ∉ m →
      replaceFirst (m ++ comSlashPat ++ r) comSlashPat comColonPat =
        m ++ comColonPat ++ r := by
  intro m
  induction m with
  | nil =>
    intro r h
    simpa using replaceFirst_at_start comSlashPat r comColonPat
  | cons c m ih =>
    intro r h
    have hnot : startsWithL comSlashPat (c :: (m ++ (comSlashPat ++ r))) = false := by
      by_contra hcon
      rw [Bool.not_eq_false] at hcon
      obtain ⟨t, ht⟩ := startsWithL_decompose comSlashPat _ hcon
      have hq : c :: (m ++ (comSlashPat ++ r)) =
          (c :: m ++ ['.', 'c', 'o', 'm']) ++ '/' :: r := by
        simp [comSlashPat]
      have htake : (c :: (m ++ (comSlashPat ++ r))).take 5 = comSlashPat := by
        rw [ht]
        exact List.take_left' rfl
      have hlen : 5 ≤ (c :: m ++ ['.', 'c', 'o', 'm']).length := by
        simp [List.length_append]
      rw [hq, List.take_append_of_le_length hlen] at htake
      have hmem : '/' ∈ (c :: m ++ ['.', 'c', 'o', 'm']).take 5 := by
        rw [htake]; simp [comSlashPat]
      have hmem2 : '/' ∈ c :: m ++ ['.', 'c', 'o', 'm'] := List.take_subset _ _ hmem
      rcases List.mem_append.mp hmem2 with h3 | h3
      · exact h h3
      · simp at h3
    simp only [List.cons_append, List.append_assoc]
    unfold replaceFirst
    rw [hnot]
    simp only [Bool.false_eq_true, if_false]
    show c :: replaceFirst (m ++ (comSlashPat ++ r)) comSlashPat comColonPat =
      c :: (m ++ (comColonPat ++ r))
    have hm : ('/' : Char) ∉ m := fun hc => h (List.mem_cons_of_mem c hc)
    have hih := ih r hm
    simp only [List.append_assoc] at hih
    rw [hih]

/-! ## Claim theorems -/

/-- Claim C2, counterexample: a copy operation whose target contains
dot-dot traversal (../../etc/passwd) is NOT rejected with a path-escape
error: SecureJoin clamps the traversal at the environment root and the
operation then runs against the clamped in-root path, mutating the target
workspace.  No rejection of any kind takes place. -/
theorem c2_traversal_not_rejected :
    secureJoin ["envs", "prod"] "../../etc/passwd" = ["envs", "prod", "etc", "passwd"] ∧
    copyOperation { files := [(["envs", "dev", "a.txt"], "new")], dirs := [] }
        { files := [(["envs", "prod", "etc", "passwd"], "old")], dirs := [] }
        (secureJoin ["envs", "dev"] "a.txt") (secureJoin ["envs", "prod"] "../../etc/passwd") =
      Except.ok { files := [(["envs", "prod", "etc", "passwd"], "new")],
                  dirs := [["envs", "prod", "etc"]] } := by
  constructor
  · rfl
  · rfl

/-- Claim C2, amended: copy operation paths are resolved by a root-confining
join; a path that attempts to traverse outside the environment root is not
rejected but clamped, so the resolved path always extends the root and the
resolved relative part contains no dot-dot, dot, or empty components. -/
theorem c2_secure_join_confinement (root : FPath) (rawPath : String) :
    secureJoin root rawPath = root ++ secureJoinComponents (splitPath rawPath) ∧
    ∀ comp ∈ secureJoinComponents (splitPath rawPath),
      comp ≠ ".." ∧ comp ≠ "." ∧ comp ≠ "" := by
  refine ⟨rfl, ?_⟩
  exact foldl_secureJoinStep_good _ [] (by simp)

/-- Witness for the amended C2 theorem at a concrete traversal path. -/
theorem c2_secure_join_confinement_witness :
    secureJoin ["envs", "prod"] "../../x" =
      ["envs", "prod"] ++ secureJoinComponents (splitPath "../../x") ∧
    ∀ comp ∈ secureJoinComponents (splitPath "../../x"),
      comp ≠ ".." ∧ comp ≠ "." ∧ comp ≠ "" :=
  c2_secure_join_confinement ["envs", "prod"] "../../x"

/-- Claim C6 (code bug): CopyOperation stats the target path unconditionally,
so a file copy whose target path does not yet exist fails with the stat
error instead of creating the missing parent directories and succeeding.
The two target cases that do exist behave as the claim states: an existing
directory target receives the file under its base name, and an existing file
target is overwritten at the literal path. -/
theorem c6_copy_target_semantics :
    copyOperation { files := [(["envs", "dev", "a.txt"], "v1")], dirs := [] }
        { files := [], dirs := [] }
        ["envs", "dev", "a.txt"] ["envs", "prod", "sub", "b.txt"] =
      Except.error "stat: no such file or directory" ∧
    copyOperation { files := [(["envs", "dev", "a.txt"], "v1")], dirs := [] }
        { files := [(["envs", "prod", "x.txt"], "keep")], dirs := [] }
        ["envs", "dev", "a.txt"] ["envs", "prod"] =
      Except.ok { files := [(["envs", "prod", "x.txt"], "keep"),
                            (["envs", "prod", "a.txt"], "v1")],
                  dirs := [["envs", "prod"]] } ∧
    copyOperation { files := [(["envs", "dev", "a.txt"], "v1")], dirs := [] }
        { files := [(["envs", "prod", "a.txt"], "old")], dirs := [] }
        ["envs", "dev", "a.txt"] ["envs", "prod", "a.txt"] =
      Except.ok { files := [(["envs", "prod", "a.txt"], "v1")],
                  dirs := [["envs", "prod"]] } := by
  refine ⟨?_, ?_, ?_⟩ <;> rfl

/-- Claim C9: on every exit path the reconcile only rewrites the status of
the Promotion: its name, generation, environment references, copy list, and
strategy are returned unchanged (and the model gives the reconcile no way to
write to either Environment, whose records are inputs of the world). -/
theorem c9_status_only_frame (w : ReconcileWorld) (obj : Promotion) :
    promSpecView (reconcile w obj).obj = promSpecView obj :=
  (reconcile_frame w obj).1

/-- Claim C10: for a gitProvider other than github the provider switch
returns no error and leaves the client nil, and the subsequent repository
lookup dereferences the nil interface (a panic) instead of failing fast. -/
theorem c10_nil_provider_client
    (getSecret : String → Except String TokenSecret)
    (ghNew : String → Except String Nat)
    (parseURL : List Char → Except String Nat)
    (orgGet : Nat → Nat → Except String Nat)
    (apiRef : Option String) (provider : String) (url : List Char)
    (s : TokenSecret) (r : Nat)
    (hprov : provider ≠ gitProviderGitHub)
    (hTok : tokenSecretFetch getSecret apiRef = Except.ok s)
    (hParse : parseURL url = Except.ok r) :
    selectProviderClient provider s.token ghNew = Except.ok none ∧
    newGitProviderOrgRepository getSecret ghNew parseURL orgGet apiRef provider url =
      ProvResult.nilClientPanic := by
  have hsel : selectProviderClient provider s.token ghNew = Except.ok none := by
    unfold selectProviderClient
    rw [if_neg hprov]
  refine ⟨hsel, ?_⟩
  unfold newGitProviderOrgRepository
  simp only [hTok, hsel, hParse]

/-- Witness for C10 at a concrete empty provider string. -/
theorem c10_nil_provider_client_witness :
    ("" : String) ≠ gitProviderGitHub ∧
    (selectProviderClient "" (TokenSecret.mk "").token (fun _ => Except.ok 0) = Except.ok none ∧
     newGitProviderOrgRepository (fun _ => Except.ok { token := "tok" })
        (fun _ => Except.ok 0) (fun _ => Except.ok 0) (fun _ _ => Except.ok 0)
        none "" [] = ProvResult.nilClientPanic) :=
  ⟨by decide,
   c10_nil_provider_client (fun _ => Except.ok { token := "tok" }) (fun _ => Except.ok 0)
     (fun _ => Except.ok 0) (fun _ _ => Except.ok 0) none "" [] { token := "" } 0
     (by decide) rfl rfl⟩

/-- Claim C7, counterexample: with a credential secret and an HTTPS URL whose
host does not end in .com, the second replacement (.com/ to .com:) does not
fire, so the rewritten URL keeps a slash after the host and is not of the
git@host:org/repo form the claim states for every host. -/
theorem c7_rewrite_counterexample :
    setupGitAuthEnvironment (fun _ => Except.ok { privateKey := ['k'] })
        (fun _ => Except.ok ()) (some "prod-ssh")
        (String.toList "https://gitlab.example.io/org/repo") =
      Except.ok (some { user := "git", insecureIgnoreHostKey := true },
        String.toList "git@gitlab.example.io/org/repo") ∧
    String.toList "git@gitlab.example.io/org/repo" ≠
      String.toList "git@gitlab.example.io:org/repo" := by
  constructor
  · rfl
  · decide

/-- Claim C7, amended: without a credential secret the URL passes through
unchanged with no auth handle; with one, the auth handle has user git and
host key verification disabled, and for an HTTPS URL whose slash-free host
ends in .com the clone URL is rewritten to the git@host:rest SSH form (for
other hosts only the scheme is replaced, see the counterexample). -/
theorem c7_credential_resolution
    (getSecret : String → Except String SSHSecret)
    (parseKey : List Char → Except String Unit)
    (url : List Char) :
    setupGitAuthEnvironment getSecret parseKey none url = Except.ok (none, url) ∧
    (∀ (sname : String) (s : SSHSecret) (host rest hshort : List Char),
      getSecret sname = Except.ok s →
      parseKey s.privateKey = Except.ok () →
      '/' ∉ host →
      host = hshort ++ ['.', 'c', 'o', 'm'] →
      setupGitAuthEnvironment getSecret parseKey (some sname)
          (httpsPat ++ host ++ '/' :: rest) =
        Except.ok (some { user := "git", insecureIgnoreHostKey := true },
          gitAtPat ++ host ++ ':' :: rest)) := by
  constructor
  · rfl
  · intro sname s host rest hshort hg hp hslash hhost
    unfold setupGitAuthEnvironment
    simp only [hg, hp]
    have h1 : replaceFirst (httpsPat ++ host ++ '/' :: rest) httpsPat gitAtPat
        = gitAtPat ++ (host ++ '/' :: rest) := by
      rw [List.append_assoc]
      exact replaceFirst_at_start _ _ _
    have hm : ('/' : Char) ∉ gitAtPat ++ hshort := by
      intro hc
      rcases List.mem_append.mp hc with h3 | h3
      · simp [gitAtPat] at h3
      · exact hslash (hhost ▸ List.mem_append_left _ h3)
    have h2 : gitAtPat ++ (host ++ '/' :: rest)
        = (gitAtPat ++ hshort) ++ comSlashPat ++ rest := by
      subst hhost
      simp [comSlashPat]
    have h3 : replaceFirst ((gitAtPat ++ hshort) ++ comSlashPat ++ rest)
        comSlashPat comColonPat = (gitAtPat ++ hshort) ++ comColonPat ++ rest :=
      replaceFirst_comSlash _ _ hm
    rw [h1, h2, h3]
    subst hhost
    simp [comColonPat]

/-- Witness for the amended C7 theorem at the github.com host. -/
theorem c7_credential_resolution_witness :
    ('/' : Char) ∉ String.toList "github.com" ∧
    String.toList "github.com" = String.toList "github" ++ ['.', 'c', 'o', 'm'] ∧
    setupGitAuthEnvironment (fun _ => Except.ok { privateKey := ['k'] })
        (fun _ => Except.ok ()) (some "prod-ssh")
        (httpsPat ++ String.toList "github.com" ++ '/' :: String.toList "org/repo") =
      Except.ok (some { user := "git", insecureIgnoreHostKey := true },
        gitAtPat ++ String.toList "github.com" ++ ':' :: String.toList "org/repo") :=
  ⟨by decide, by decide,
   (c7_credential_resolution (fun _ => Except.ok { privateKey := ['k'] })
       (fun _ => Except.ok ()) []).2 "prod-ssh" { privateKey := ['k'] }
     (String.toList "github.com") (String.toList "org/repo") (String.toList "github")
     rfl rfl (by decide) (by decide)⟩

/-! ## Success implies the steady-state requeue -/

theorem syncPR_cases (w : ReconcileWorld) (sName tName : String) (tref : Option String)
    (isOpen : Bool) (prNum : Int) (branch : String) (st : LoopState) :
    (syncPR w sName tName tref isOpen prNum branch st).requeueAfter = some 300 ∨
    (syncPR w sName tName tref isOpen prNum branch st).err ≠ none ∨
    (syncPR w sName tName tref isOpen prNum branch st).panicked = true := by
  unfold syncPR
  split
  · split
    · split
      · right; left; simp [finishRec]
      · left; rfl
    · split
      · right; right; rfl
      · split
        · right; left; simp [finishRec]
        · left; rfl
  · split
    · left; rfl
    · left; rfl

theorem acquireAndRun_cases (w : ReconcileWorld) (obj : Promotion) (sEnv tEnv : Environment)
    (srcRepo : SourceRepoState) (tgtTree : FSState) (prs : List PRInfo) (tr : List Effect) :
    (acquireAndRun w obj sEnv tEnv srcRepo tgtTree prs tr).requeueAfter = some 300 ∨
    (acquireAndRun w obj sEnv tEnv srcRepo tgtTree prs tr).err ≠ none ∨
    (acquireAndRun w obj sEnv tEnv srcRepo tgtTree prs tr).panicked = true := by
  unfold acquireAndRun
  split
  · split
    · right; left; simp [finishRec]
    · split
      · right; left; simp [finishRec]
      · split
        · right; left; simp [finishRec]
        · split
          · right; left; simp [finishRec]
          · exact syncPR_cases w _ _ _ _ _ _ _
  · split
    · right; left; simp [finishRec]
    · split
      · right; left; simp [finishRec]
      · exact syncPR_cases w _ _ _ _ _ _ _

theorem reconcile_cases (w : ReconcileWorld) (obj : Promotion) (sEnv tEnv : Environment)
    (hS : w.sourceEnvR = KRes.ok sEnv) (hT : w.targetEnvR = KRes.ok tEnv)
    (hRS : isReadyEnv sEnv = true) (hRT : isReadyEnv tEnv = true) :
    (reconcile w obj).requeueAfter = some 300 ∨
    (reconcile w obj).err ≠ none ∨
    (reconcile w obj).panicked = true := by
  unfold reconcile
  simp only [hS, hT, hRS, hRT, Bool.true_eq_false, if_false]
  split
  · right; left; simp [finishRec]
  · split
    · right; left; simp [finishRec]
    · split
      · right; left; simp [finishRec]
      · split
        · right; left; simp [finishRec]
        · split
          · right; left; simp [finishRec]
          · split
            · right; left; simp [finishRec]
            · split
              · right; left; simp [finishRec]
              · exact acquireAndRun_cases w obj _ _ _ _ _ _

/-- Claim C8: when either referenced Environment is not ready the reconcile
exits early with a ten second requeue, a nil error, no clone, no copy, no
provider call, no commit or push, and an untouched condition list; and any
fully successful attempt (nil error, no panic) for ready environments ends
with the steady-state three hundred second requeue. -/
theorem c8_requeue_delays (w : ReconcileWorld) (obj : Promotion) :
    (∀ sEnv tEnv, w.sourceEnvR = KRes.ok sEnv → w.targetEnvR = KRes.ok tEnv →
      (isReadyEnv sEnv = false ∨ isReadyEnv tEnv = false) →
      (reconcile w obj).requeueAfter = some 10 ∧ (reconcile w obj).err = none ∧
      cloneCnt (reconcile w obj).trace = 0 ∧ providerCnt (reconcile w obj).trace = 0 ∧
      copyPairs (reconcile w obj).trace = [] ∧ commitMsgs (reconcile w obj).trace = [] ∧
      pushCnt (reconcile w obj).trace = 0 ∧
      (reconcile w obj).obj.status.conditions = obj.status.conditions) ∧
    (∀ sEnv tEnv, w.sourceEnvR = KRes.ok sEnv → w.targetEnvR = KRes.ok tEnv →
      isReadyEnv sEnv = true → isReadyEnv tEnv = true →
      (reconcile w obj).err = none → (reconcile w obj).panicked = false →
      (reconcile w obj).requeueAfter = some 300) := by
  constructor
  · intro sEnv tEnv hS hT hNR
    have hred : reconcile w obj = finishRec obj [] (some 10) none false := by
      unfold reconcile
      rcases hNR with hs | ht
      · simp [hS, hT, hs]
      · by_cases hsf : isReadyEnv sEnv = false
        · simp [hS, hT, hsf]
        · simp [hS, hT, hsf, ht]
    rw [hred]
    exact ⟨rfl, rfl, rfl, rfl, rfl, rfl, rfl, rfl⟩
  · intro sEnv tEnv hS hT hRS hRT hErr hPan
    rcases reconcile_cases w obj sEnv tEnv hS hT hRS hRT with h | h | h
    · exact h
    · exact absurd hErr h
    · rw [hPan] at h; cases h

/-- Witness for C8 at concrete worlds: a not-ready source environment waits
ten seconds, and the fully successful converged run requeues after three
hundred seconds. -/
theorem c8_requeue_delays_witness :
    ((reconcile worldWait objC).requeueAfter = some 10 ∧
      (reconcile worldWait objC).err = none ∧
      cloneCnt (reconcile worldWait objC).trace = 0 ∧
      providerCnt (reconcile worldWait objC).trace = 0 ∧
      copyPairs (reconcile worldWait objC).trace = [] ∧
      commitMsgs (reconcile worldWait objC).trace = [] ∧
      pushCnt (reconcile worldWait objC).trace = 0 ∧
      (reconcile worldWait objC).obj.status.conditions = objC.status.conditions) ∧
    (reconcile worldBase objC).requeueAfter = some 300 :=
  ⟨(c8_requeue_delays worldWait objC).1 sEnvNotReadyC tEnvC rfl rfl (Or.inl (by decide)),
   (c8_requeue_delays worldBase objC).2 sEnvC tEnvC rfl rfl (by decide) (by decide)
     (by decide) (by decide)⟩

/-- Claim C5 (amended): a failing step aborts the attempt and returns the
error to the delivery mechanism, but the readiness condition is never set to
not-ready: the reconcile never introduces a condition with status False on
any path (it never calls the PromotionNotReady helper), and when the source
clone fails the attempt returns that error with the condition list untouched
and without any copy, commit, push, or request operation. -/
theorem c5_failure_reporting (w : ReconcileWorld) (obj : Promotion) :
    noNewFalse obj.status.conditions (reconcile w obj).obj.status.conditions ∧
    (∀ sEnv tEnv e, w.sourceEnvR = KRes.ok sEnv → w.targetEnvR = KRes.ok tEnv →
      isReadyEnv sEnv = true → isReadyEnv tEnv = true →
      w.tmpSourceR = Except.ok () → w.cloneSourceR = Except.error e →
      (reconcile w obj).err = some e ∧
      (reconcile w obj).obj.status.conditions = obj.status.conditions ∧
      copyPairs (reconcile w obj).trace = [] ∧
      commitMsgs (reconcile w obj).trace = [] ∧
      pushCnt (reconcile w obj).trace = 0 ∧
      prCreates (reconcile w obj).trace = [] ∧
      prEdits (reconcile w obj).trace = []) := by
  constructor
  · exact (reconcile_frame w obj).2
  · intro sEnv tEnv e hS hT hRS hRT h1 h2
    have hred : reconcile w obj = finishRec obj [Effect.cloneSource] none (some e) false := by
      unfold reconcile
      simp only [hS, hT, hRS, hRT, Bool.true_eq_false, if_false, h1, h2]
    rw [hred]
    exact ⟨rfl, rfl, rfl, rfl, rfl, rfl, rfl⟩

/-- Witness for the amended C5 theorem at the failing-clone world. -/
theorem c5_failure_reporting_witness :
    (reconcile worldCloneFail objC).err = some "clone failed" ∧
    (reconcile worldCloneFail objC).obj.status.conditions = objC.status.conditions ∧
    copyPairs (reconcile worldCloneFail objC).trace = [] ∧
    commitMsgs (reconcile worldCloneFail objC).trace = [] ∧
    pushCnt (reconcile worldCloneFail objC).trace = 0 ∧
    prCreates (reconcile worldCloneFail objC).trace = [] ∧
    prEdits (reconcile worldCloneFail objC).trace = [] :=
  (c5_failure_reporting worldCloneFail objC).2 sEnvC tEnvC "clone failed"
    rfl rfl (by decide) (by decide) rfl rfl

/-- Claim C5, counterexample: a run whose source clone fails returns the
error with NO readiness condition recorded at all — the condition is not set
to False with a reason and message before the error is surfaced. -/
theorem c5_no_notready_on_failure :
    (reconcile worldCloneFail objC).err = some "clone failed" ∧
    findCondition (reconcile worldCloneFail objC).obj.status.conditions readyCondition =
      none := by
  constructor
  · rfl
  · rfl

/-! ## Pointwise evaluations of the request synchronisation step -/

theorem syncPR_clean_closed (w : ReconcileWorld) (sName tName : String) (tref : Option String)
    (prNum : Int) (branch : String) (st : LoopState) (hh : st.headN = 0) :
    syncPR w sName tName tref false prNum branch st =
      finishRec (promotionReady (promotionReady st.obj succeededReason
          "A pull request is open for review.") succeededReason
          "Source and target environments are in sync, nothing to promote.")
        st.trace (some 300) none false := by
  unfold syncPR
  simp [hh]

theorem syncPR_clean_open (w : ReconcileWorld) (sName tName : String) (tref : Option String)
    (prNum : Int) (branch : String) (st : LoopState) (hh : st.headN = 0) :
    syncPR w sName tName tref true prNum branch st =
      finishRec (promotionReady st.obj succeededReason "A pull request is open for review.")
        st.trace (some 300) none false := by
  unfold syncPR
  simp [hh]

theorem syncPR_create (w : ReconcileWorld) (sName tName base : String)
    (prNum : Int) (branch : String) (st : LoopState) (prc : PRInfo)
    (hh : st.headN ≠ 0) (hcr : w.createPRR = Except.ok prc) :
    syncPR w sName tName (some base) false prNum branch st =
      finishRec
        { promotionReady st.obj succeededReason "New Pull request created successfully" with
          status := { (promotionReady st.obj succeededReason
              "New Pull request created successfully").status with
            lastPullRequestNumber := prc.number
            lastPullRequestURL := prc.url } }
        (st.trace ++ [Effect.prCreate (mkPRTitle st.promoted sName tName) branch base])
        (some 300) none false := by
  unfold syncPR
  simp [hh, hcr]

theorem syncPR_create_err (w : ReconcileWorld) (sName tName base : String)
    (prNum : Int) (branch : String) (st : LoopState) (e : String)
    (hh : st.headN ≠ 0) (hcr : w.createPRR = Except.error e) :
    syncPR w sName tName (some base) false prNum branch st =
      finishRec st.obj
        (st.trace ++ [Effect.prCreate (mkPRTitle st.promoted sName tName) branch base])
        none (some e) false := by
  unfold syncPR
  simp [hh, hcr]

theorem syncPR_nilref (w : ReconcileWorld) (sName tName : String)
    (prNum : Int) (branch : String) (st : LoopState) (hh : st.headN ≠ 0) :
    syncPR w sName tName none false prNum branch st =
      finishRec st.obj st.trace none none true := by
  unfold syncPR
  simp [hh]

theorem syncPR_edit (w : ReconcileWorld) (sName tName : String) (tref : Option String)
    (prNum : Int) (branch : String) (st : LoopState)
    (hh : st.headN ≠ 0) (hed : w.editPRR = Except.ok ()) :
    syncPR w sName tName tref true prNum branch st =
      finishRec st.obj
        (st.trace ++ [Effect.prEdit prNum (mkPRTitle st.promoted sName tName)])
        (some 300) none false := by
  unfold syncPR
  simp [hh, hed]

theorem syncPR_edit_err (w : ReconcileWorld) (sName tName : String) (tref : Option String)
    (prNum : Int) (branch : String) (st : LoopState) (e : String)
    (hh : st.headN ≠ 0) (hed : w.editPRR = Except.error e) :
    syncPR w sName tName tref true prNum branch st =
      finishRec st.obj
        (st.trace ++ [Effect.prEdit prNum (mkPRTitle st.promoted sName tName)])
        none (some e) false := by
  unfold syncPR
  simp [hh, hed]

/-! ## Reaching the synchronisation step through each branch acquisition -/

theorem acquireAndRun_open_ok (w : ReconcileWorld) (obj : Promotion) (sEnv tEnv : Environment)
    (srcRepo : SourceRepoState) (tgtTree : FSState) (prs : List PRInfo) (tr : List Effect)
    (prInfo : PRInfo) (st1 : LoopState)
    (hO : isPROpenCheck obj.status.lastPullRequestNumber prs = true)
    (hGet : w.getPRR obj.status.lastPullRequestNumber = Except.ok prInfo)
    (hF : w.fetchR = Except.ok ()) (hCO : w.checkoutOpenR = Except.ok ())
    (hLoop : runCopyLoop w srcRepo.fs sEnv.path tEnv.path sEnv.name tEnv.name
        (firstSeven srcRepo.headHash) obj.copy
        { tgt := w.prBranchTree
          committed := w.prBranchTree.files
          headN := 0
          promoted := []
          commits := 0
          obj := obj
          trace := tr ++ [Effect.prGet obj.status.lastPullRequestNumber, Effect.fetchRemote,
            Effect.checkoutBranch prInfo.sourceBranch false true] } = (st1, none)) :
    acquireAndRun w obj sEnv tEnv srcRepo tgtTree prs tr =
      syncPR w sEnv.name tEnv.name tEnv.reference true prInfo.number prInfo.sourceBranch st1 := by
  unfold acquireAndRun
  simp only [hO, if_true, hGet, hF, hCO, hLoop]

theorem acquireAndRun_open_err (w : ReconcileWorld) (obj : Promotion) (sEnv tEnv : Environment)
    (srcRepo : SourceRepoState) (tgtTree : FSState) (prs : List PRInfo) (tr : List Effect)
    (prInfo : PRInfo) (st1 : LoopState) (e : String)
    (hO : isPROpenCheck obj.status.lastPullRequestNumber prs = true)
    (hGet : w.getPRR obj.status.lastPullRequestNumber = Except.ok prInfo)
    (hF : w.fetchR = Except.ok ()) (hCO : w.checkoutOpenR = Except.ok ())
    (hLoop : runCopyLoop w srcRepo.fs sEnv.path tEnv.path sEnv.name tEnv.name
        (firstSeven srcRepo.headHash) obj.copy
        { tgt := w.prBranchTree
          committed := w.prBranchTree.files
          headN := 0
          promoted := []
          commits := 0
          obj := obj
          trace := tr ++ [Effect.prGet obj.status.lastPullRequestNumber, Effect.fetchRemote,
            Effect.checkoutBranch prInfo.sourceBranch false true] } = (st1, some e)) :
    acquireAndRun w obj sEnv tEnv srcRepo tgtTree prs tr =
      finishRec st1.obj st1.trace none (some e) false := by
  unfold acquireAndRun
  simp only [hO, if_true, hGet, hF, hCO, hLoop]

theorem acquireAndRun_new_ok (w : ReconcileWorld) (obj : Promotion) (sEnv tEnv : Environment)
    (srcRepo : SourceRepoState) (tgtTree : FSState) (prs : List PRInfo) (tr : List Effect)
    (st1 : LoopState)
    (hO : isPROpenCheck obj.status.lastPullRequestNumber prs = false)
    (hCN : w.checkoutNewR = Except.ok ())
    (hLoop : runCopyLoop w srcRepo.fs sEnv.path tEnv.path sEnv.name tEnv.name
        (firstSeven srcRepo.headHash) obj.copy
        { tgt := tgtTree
          committed := tgtTree.files
          headN := 0
          promoted := []
          commits := 0
          obj := obj
          trace := tr ++ [Effect.checkoutBranch (freshBranchName obj.name w.timestampStr)
            true false] } = (st1, none)) :
    acquireAndRun w obj sEnv tEnv srcRepo tgtTree prs tr =
      syncPR w sEnv.name tEnv.name tEnv.reference false 0
        (freshBranchName obj.name w.timestampStr) st1 := by
  unfold acquireAndRun
  simp only [hO, Bool.false_eq_true, if_false, hCN, hLoop]

theorem acquireAndRun_new_err (w : ReconcileWorld) (obj : Promotion) (sEnv tEnv : Environment)
    (srcRepo : SourceRepoState) (tgtTree : FSState) (prs : List PRInfo) (tr : List Effect)
    (st1 : LoopState) (e : String)
    (hO : isPROpenCheck obj.status.lastPullRequestNumber prs = false)
    (hCN : w.checkoutNewR = Except.ok ())
    (hLoop : runCopyLoop w srcRepo.fs sEnv.path tEnv.path sEnv.name tEnv.name
        (firstSeven srcRepo.headHash) obj.copy
        { tgt := tgtTree
          committed := tgtTree.files
          headN := 0
          promoted := []
          commits := 0
          obj := obj
          trace := tr ++ [Effect.checkoutBranch (freshBranchName obj.name w.timestampStr)
            true false] } = (st1, some e)) :
    acquireAndRun w obj sEnv tEnv srcRepo tgtTree prs tr =
      finishRec st1.obj st1.trace none (some e) false := by
  unfold acquireAndRun
  simp only [hO, Bool.false_eq_true, if_false, hCN, hLoop]

/-- Claim C1: a reconcile run in which every copy operation succeeds and
leaves the target worktree clean (source and target converged) produces no
commit, no push, and neither creates nor edits a pull request, returns no
error, and ends with the Ready message for an open request or the in-sync
message otherwise. -/
theorem c1_idempotent_converged (w : ReconcileWorld) (obj : Promotion)
    (sEnv tEnv : Environment) (srcRepo : SourceRepoState) (tgtTree : FSState)
    (prs : List PRInfo)
    (hS : w.sourceEnvR = KRes.ok sEnv) (hT : w.targetEnvR = KRes.ok tEnv)
    (hRS : isReadyEnv sEnv = true) (hRT : isReadyEnv tEnv = true)
    (h1 : w.tmpSourceR = Except.ok ()) (h2 : w.cloneSourceR = Except.ok srcRepo)
    (h3 : w.tmpTargetR = Except.ok ()) (h4 : w.cloneTargetR = Except.ok tgtTree)
    (h5 : w.providerRepoR = Except.ok ()) (h6 : w.authR = Except.ok ())
    (h7 : w.listPRsR = Except.ok prs)
    (hAcq : if isPROpenCheck obj.status.lastPullRequestNumber prs
            then ∃ prInfo, w.getPRR obj.status.lastPullRequestNumber = Except.ok prInfo ∧
              w.fetchR = Except.ok () ∧ w.checkoutOpenR = Except.ok ()
            else w.checkoutNewR = Except.ok ())
    (hClean : allCleanRun srcRepo.fs sEnv.path tEnv.path obj.copy
        (if isPROpenCheck obj.status.lastPullRequestNumber prs then w.prBranchTree else tgtTree)
        (if isPROpenCheck obj.status.lastPullRequestNumber prs then w.prBranchTree
         else tgtTree).files = true) :
    commitMsgs (reconcile w obj).trace = [] ∧
    pushCnt (reconcile w obj).trace = 0 ∧
    prCreates (reconcile w obj).trace = [] ∧
    prEdits (reconcile w obj).trace = [] ∧
    (reconcile w obj).err = none ∧
    promotionReadyMessage (reconcile w obj).obj =
      (if isPROpenCheck obj.status.lastPullRequestNumber prs
       then "A pull request is open for review."
       else "Source and target environments are in sync, nothing to promote.") := by
  have hEntry := reconcile_entry w obj sEnv tEnv srcRepo tgtTree prs
    hS hT hRS hRT h1 h2 h3 h4 h5 h6 h7
  by_cases hO : isPROpenCheck obj.status.lastPullRequestNumber prs = true
  · simp only [hO, if_true] at hAcq hClean ⊢
    obtain ⟨prInfo, hGet, hF, hCO⟩ := hAcq
    cases hLoop : runCopyLoop w srcRepo.fs sEnv.path tEnv.path sEnv.name tEnv.name
        (firstSeven srcRepo.headHash) obj.copy
        { tgt := w.prBranchTree
          committed := w.prBranchTree.files
          headN := 0
          promoted := []
          commits := 0
          obj := obj
          trace := [Effect.cloneSource, Effect.cloneTarget, Effect.providerRepo,
              Effect.providerList] ++
            [Effect.prGet obj.status.lastPullRequestNumber, Effect.fetchRemote,
              Effect.checkoutBranch prInfo.sourceBranch false true] } with
    | mk st1 eOut =>
      obtain ⟨he, hsel⟩ := runCopyLoop_clean w srcRepo.fs sEnv.path tEnv.path sEnv.name
        tEnv.name (firstSeven srcRepo.headHash) obj.copy
        { tgt := w.prBranchTree
          committed := w.prBranchTree.files
          headN := 0
          promoted := []
          commits := 0
          obj := obj
          trace := [Effect.cloneSource, Effect.cloneTarget, Effect.providerRepo,
              Effect.providerList] ++
            [Effect.prGet obj.status.lastPullRequestNumber, Effect.fetchRemote,
              Effect.checkoutBranch prInfo.sourceBranch false true] } hClean
      rw [hLoop] at he
      simp only at he
      subst he
      obtain ⟨htr, hprom, hheadN, hcommits, hobj⟩ :=
        runCopyLoop_ok w srcRepo.fs sEnv.path tEnv.path sEnv.name tEnv.name
          (firstSeven srcRepo.headHash) obj.copy _ st1 hLoop
      have ho := hobj hsel
      have hh0 : st1.headN = 0 := by
        rw [hheadN, hsel]
        rfl
      have hred := hEntry.trans (acquireAndRun_open_ok w obj sEnv tEnv srcRepo tgtTree prs
        _ prInfo st1 hO hGet hF hCO hLoop)
      rw [hred, syncPR_clean_open w sEnv.name tEnv.name tEnv.reference prInfo.number
        prInfo.sourceBranch st1 hh0]
      refine ⟨?_, ?_, ?_, ?_, rfl, ?_⟩
      · rw [finishRec_trace, commitMsgs_append, htr, commitMsgs_append,
          commitMsgs_specLoopTrace, hsel]
        simp [commitMsgs]
      · rw [finishRec_trace, pushCnt_append, htr, pushCnt_append,
          pushCnt_specLoopTrace, hsel]
        simp [pushCnt]
      · rw [finishRec_trace, prCreates_append, htr, prCreates_append,
          prCreates_specLoopTrace]
        simp [prCreates]
      · rw [finishRec_trace, prEdits_append, htr, prEdits_append,
          prEdits_specLoopTrace]
        simp [prEdits]
      · rw [promotionReadyMessage_finishRec, ho]
        exact promotionReadyMessage_promotionReady _ _ _
  · simp only [Bool.not_eq_true] at hO
    simp only [hO, Bool.false_eq_true, if_false] at hAcq hClean ⊢
    cases hLoop : runCopyLoop w srcRepo.fs sEnv.path tEnv.path sEnv.name tEnv.name
        (firstSeven srcRepo.headHash) obj.copy
        { tgt := tgtTree
          committed := tgtTree.files
          headN := 0
          promoted := []
          commits := 0
          obj := obj
          trace := [Effect.cloneSource, Effect.cloneTarget, Effect.providerRepo,
              Effect.providerList] ++
            [Effect.checkoutBranch (freshBranchName obj.name w.timestampStr) true false] } with
    | mk st1 eOut =>
      obtain ⟨he, hsel⟩ := runCopyLoop_clean w srcRepo.fs sEnv.path tEnv.path sEnv.name
        tEnv.name (firstSeven srcRepo.headHash) obj.copy
        { tgt := tgtTree
          committed := tgtTree.files
          headN := 0
          promoted := []
          commits := 0
          obj := obj
          trace := [Effect.cloneSource, Effect.cloneTarget, Effect.providerRepo,
              Effect.providerList] ++
            [Effect.checkoutBranch (freshBranchName obj.name w.timestampStr) true false] }
        hClean
      rw [hLoop] at he
      simp only at he
      subst he
      obtain ⟨htr, hprom, hheadN, hcommits, hobj⟩ :=
        runCopyLoop_ok w srcRepo.fs sEnv.path tEnv.path sEnv.name tEnv.name
          (firstSeven srcRepo.headHash) obj.copy _ st1 hLoop
      have ho := hobj hsel
      have hh0 : st1.headN = 0 := by
        rw [hheadN, hsel]
        rfl
      have hred := hEntry.trans (acquireAndRun_new_ok w obj sEnv tEnv srcRepo tgtTree prs
        _ st1 hO hAcq hLoop)
      rw [hred, syncPR_clean_closed w sEnv.name tEnv.name tEnv.reference 0
        (freshBranchName obj.name w.timestampStr) st1 hh0]
      refine ⟨?_, ?_, ?_, ?_, rfl, ?_⟩
      · rw [finishRec_trace, commitMsgs_append, htr, commitMsgs_append,
          commitMsgs_specLoopTrace, hsel]
        simp [commitMsgs]
      · rw [finishRec_trace, pushCnt_append, htr, pushCnt_append,
          pushCnt_specLoopTrace, hsel]
        simp [pushCnt]
      · rw [finishRec_trace, prCreates_append, htr, prCreates_append,
          prCreates_specLoopTrace]
        simp [prCreates]
      · rw [finishRec_trace, prEdits_append, htr, prEdits_append,
          prEdits_specLoopTrace]
        simp [prEdits]
      · rw [promotionReadyMessage_finishRec, ho]
        exact promotionReadyMessage_promotionReady _ _ _

/-- Witness for C1 at the converged concrete world with no open request. -/
theorem c1_idempotent_converged_witness :
    commitMsgs (reconcile worldBase objC).trace = [] ∧
    pushCnt (reconcile worldBase objC).trace = 0 ∧
    prCreates (reconcile worldBase objC).trace = [] ∧
    prEdits (reconcile worldBase objC).trace = [] ∧
    (reconcile worldBase objC).err = none ∧
    promotionReadyMessage (reconcile worldBase objC).obj =
      (if isPROpenCheck objC.status.lastPullRequestNumber ([] : List PRInfo)
       then "A pull request is open for review."
       else "Source and target environments are in sync, nothing to promote.") :=
  c1_idempotent_converged worldBase objC sEnvC tEnvC srcRepoC tgtTreeCleanC []
    rfl rfl (by decide) (by decide) rfl rfl rfl rfl rfl rfl rfl
    (by
      have h : isPROpenCheck objC.status.lastPullRequestNumber ([] : List PRInfo) = false := rfl
      rw [h]
      simp [worldBase])
    (by
      have h : isPROpenCheck objC.status.lastPullRequestNumber ([] : List PRInfo) = false := rfl
      rw [h]
      simp only [Bool.false_eq_true, if_false]
      decide)

/-- Claim C3: a request counts as open exactly when the recorded number is
non-zero and appears in the freshly listed open requests (isPROpenCheck);
when the check fails and the run produces commits, a new pull request is
created (never edited) against the target environment configured branch, and
the status fields are overwritten with the number and URL of the newly
created request. -/
theorem c3_resume_vs_recreate (w : ReconcileWorld) (obj : Promotion)
    (sEnv tEnv : Environment) (srcRepo : SourceRepoState) (tgtTree : FSState)
    (prs : List PRInfo)
    (hS : w.sourceEnvR = KRes.ok sEnv) (hT : w.targetEnvR = KRes.ok tEnv)
    (hRS : isReadyEnv sEnv = true) (hRT : isReadyEnv tEnv = true)
    (h1 : w.tmpSourceR = Except.ok ()) (h2 : w.cloneSourceR = Except.ok srcRepo)
    (h3 : w.tmpTargetR = Except.ok ()) (h4 : w.cloneTargetR = Except.ok tgtTree)
    (h5 : w.providerRepoR = Except.ok ()) (h6 : w.authR = Except.ok ())
    (h7 : w.listPRsR = Except.ok prs)
    (hO : isPROpenCheck obj.status.lastPullRequestNumber prs = false)
    (hCN : w.checkoutNewR = Except.ok ())
    (hErr : (reconcile w obj).err = none)
    (hPan : (reconcile w obj).panicked = false)
    (hCommits : commitMsgs (reconcile w obj).trace ≠ []) :
    ∃ base prc,
      tEnv.reference = some base ∧
      w.createPRR = Except.ok prc ∧
      prCreates (reconcile w obj).trace =
        [(mkPRTitle ((dirtySelect srcRepo.fs sEnv.path tEnv.path obj.copy tgtTree
            tgtTree.files).map (fun o => o.name)) sEnv.name tEnv.name,
          freshBranchName obj.name w.timestampStr, base)] ∧
      prEdits (reconcile w obj).trace = [] ∧
      (reconcile w obj).obj.status.lastPullRequestNumber = prc.number ∧
      (reconcile w obj).obj.status.lastPullRequestURL = prc.url := by
  have hEntry := reconcile_entry w obj sEnv tEnv srcRepo tgtTree prs
    hS hT hRS hRT h1 h2 h3 h4 h5 h6 h7
  cases hLoop : runCopyLoop w srcRepo.fs sEnv.path tEnv.path sEnv.name tEnv.name
      (firstSeven srcRepo.headHash) obj.copy
      { tgt := tgtTree
        committed := tgtTree.files
        headN := 0
        promoted := []
        commits := 0
        obj := obj
        trace := [Effect.cloneSource, Effect.cloneTarget, Effect.providerRepo,
            Effect.providerList] ++
          [Effect.checkoutBranch (freshBranchName obj.name w.timestampStr) true false] } with
  | mk st1 eOut =>
    cases eOut with
    | some e =>
      have hred := hEntry.trans (acquireAndRun_new_err w obj sEnv tEnv srcRepo tgtTree prs
        _ st1 e hO hCN hLoop)
      rw [hred] at hErr
      simp [finishRec] at hErr
    | none =>
      have hred := hEntry.trans (acquireAndRun_new_ok w obj sEnv tEnv srcRepo tgtTree prs
        _ st1 hO hCN hLoop)
      obtain ⟨htr, hprom, hheadN, hcommits, hobj⟩ :=
        runCopyLoop_ok w srcRepo.fs sEnv.path tEnv.path sEnv.name tEnv.name
          (firstSeven srcRepo.headHash) obj.copy _ st1 hLoop
      have htr2 : st1.trace =
          ([Effect.cloneSource, Effect.cloneTarget, Effect.providerRepo,
              Effect.providerList] ++
            [Effect.checkoutBranch (freshBranchName obj.name w.timestampStr) true false]) ++
          specLoopTrace srcRepo.fs sEnv.path tEnv.path sEnv.name tEnv.name
            (firstSeven srcRepo.headHash) obj.copy tgtTree tgtTree.files := htr
      have hprom2 : st1.promoted = [] ++
          (dirtySelect srcRepo.fs sEnv.path tEnv.path obj.copy tgtTree
            tgtTree.files).map (fun o => o.name) := hprom
      have hheadN2 : st1.headN = 0 +
          (dirtySelect srcRepo.fs sEnv.path tEnv.path obj.copy tgtTree
            tgtTree.files).length := hheadN
      by_cases hsel : dirtySelect srcRepo.fs sEnv.path tEnv.path obj.copy tgtTree
          tgtTree.files = []
      · have hh0 : st1.headN = 0 := by
          rw [hheadN2, hsel]
          rfl
        rw [hred, syncPR_clean_closed w sEnv.name tEnv.name tEnv.reference 0
          (freshBranchName obj.name w.timestampStr) st1 hh0] at hCommits
        rw [finishRec_trace, commitMsgs_append, htr2, commitMsgs_append,
          commitMsgs_specLoopTrace, hsel] at hCommits
        simp [commitMsgs] at hCommits
      · have hlen : (dirtySelect srcRepo.fs sEnv.path tEnv.path obj.copy tgtTree
            tgtTree.files).length ≠ 0 :=
          fun h0 => hsel (List.length_eq_zero.mp h0)
        have hh1 : st1.headN ≠ 0 := by
          rw [hheadN2]
          omega
        cases href : tEnv.reference with
        | none =>
          rw [href] at hred
          rw [hred, syncPR_nilref w sEnv.name tEnv.name 0
            (freshBranchName obj.name w.timestampStr) st1 hh1] at hPan
          simp [finishRec] at hPan
        | some base =>
          rw [href] at hred
          cases hcr : w.createPRR with
          | error e2 =>
            rw [hred, syncPR_create_err w sEnv.name tEnv.name base 0
              (freshBranchName obj.name w.timestampStr) st1 e2 hh1 hcr] at hErr
            simp [finishRec] at hErr
          | ok prc =>
            rw [hred, syncPR_create w sEnv.name tEnv.name base 0
              (freshBranchName obj.name w.timestampStr) st1 prc hh1 hcr]
            refine ⟨base, prc, rfl, rfl, ?_, ?_, rfl, rfl⟩
            · rw [finishRec_trace, prCreates_append, prCreates_append, htr2,
                prCreates_append, prCreates_specLoopTrace, hprom2]
              simp [prCreates]
            · rw [finishRec_trace, prEdits_append, prEdits_append, htr2,
                prEdits_append, prEdits_specLoopTrace]
              simp [prEdits]

/-- Claim C4: copy operations are executed in declared order (the trace holds
one resolved copy attempt per declared operation, in order); a commit and an
immediate push happen exactly for the operations that dirty the worktree
(dirtySelect replays that selection, a sublist of the declared order); each
commit message follows the fixed template with the operation name, the two
environment names, and the first seven characters of the source head hash;
and any pull request created or edited carries the title listing exactly the
comma-joined names of the committed operations in declared order. -/
theorem c4_order_preservation (w : ReconcileWorld) (obj : Promotion)
    (sEnv tEnv : Environment) (srcRepo : SourceRepoState) (tgtTree : FSState)
    (prs : List PRInfo) (fs0 : FSState)
    (hS : w.sourceEnvR = KRes.ok sEnv) (hT : w.targetEnvR = KRes.ok tEnv)
    (hRS : isReadyEnv sEnv = true) (hRT : isReadyEnv tEnv = true)
    (h1 : w.tmpSourceR = Except.ok ()) (h2 : w.cloneSourceR = Except.ok srcRepo)
    (h3 : w.tmpTargetR = Except.ok ()) (h4 : w.cloneTargetR = Except.ok tgtTree)
    (h5 : w.providerRepoR = Except.ok ()) (h6 : w.authR = Except.ok ())
    (h7 : w.listPRsR = Except.ok prs)
    (hAcq : if isPROpenCheck obj.status.lastPullRequestNumber prs
            then ∃ prInfo, w.getPRR obj.status.lastPullRequestNumber = Except.ok prInfo ∧
              w.fetchR = Except.ok () ∧ w.checkoutOpenR = Except.ok ()
            else w.checkoutNewR = Except.ok ())
    (hfs0 : fs0 = if isPROpenCheck obj.status.lastPullRequestNumber prs
            then w.prBranchTree else tgtTree)
    (hErr : (reconcile w obj).err = none)
    (hPan : (reconcile w obj).panicked = false) :
    commitMsgs (reconcile w obj).trace =
      (dirtySelect srcRepo.fs sEnv.path tEnv.path obj.copy fs0 fs0.files).map
        (fun o => mkCommitMsg o.name sEnv.name tEnv.name (firstSeven srcRepo.headHash)) ∧
    pushCnt (reconcile w obj).trace =
      (dirtySelect srcRepo.fs sEnv.path tEnv.path obj.copy fs0 fs0.files).length ∧
    (dirtySelect srcRepo.fs sEnv.path tEnv.path obj.copy fs0 fs0.files).Sublist obj.copy ∧
    copyPairs (reconcile w obj).trace =
      obj.copy.map (fun o => (secureJoin sEnv.path o.source, secureJoin tEnv.path o.target)) ∧
    (∀ t b ba, (t, b, ba) ∈ prCreates (reconcile w obj).trace →
      t = mkPRTitle ((dirtySelect srcRepo.fs sEnv.path tEnv.path obj.copy fs0
          fs0.files).map (fun o => o.name)) sEnv.name tEnv.name) ∧
    (∀ n t, (n, t) ∈ prEdits (reconcile w obj).trace →
      t = mkPRTitle ((dirtySelect srcRepo.fs sEnv.path tEnv.path obj.copy fs0
          fs0.files).map (fun o => o.name)) sEnv.name tEnv.name) := by
  have hEntry := reconcile_entry w obj sEnv tEnv srcRepo tgtTree prs
    hS hT hRS hRT h1 h2 h3 h4 h5 h6 h7
  by_cases hO : isPROpenCheck obj.status.lastPullRequestNumber prs = true
  · simp only [hO, if_true] at hAcq hfs0
    subst hfs0
    obtain ⟨prInfo, hGet, hF, hCO⟩ := hAcq
    cases hLoop : runCopyLoop w srcRepo.fs sEnv.path tEnv.path sEnv.name tEnv.name
        (firstSeven srcRepo.headHash) obj.copy
        { tgt := w.prBranchTree
          committed := w.prBranchTree.files
          headN := 0
          promoted := []
          commits := 0
          obj := obj
          trace := [Effect.cloneSource, Effect.cloneTarget, Effect.providerRepo,
              Effect.providerList] ++
            [Effect.prGet obj.status.lastPullRequestNumber, Effect.fetchRemote,
              Effect.checkoutBranch prInfo.sourceBranch false true] } with
    | mk st1 eOut =>
      cases eOut with
      | some e =>
        have hred := hEntry.trans (acquireAndRun_open_err w obj sEnv tEnv srcRepo tgtTree prs
          _ prInfo st1 e hO hGet hF hCO hLoop)
        rw [hred] at hErr
        simp [finishRec] at hErr
      | none =>
        have hred := hEntry.trans (acquireAndRun_open_ok w obj sEnv tEnv srcRepo tgtTree prs
          _ prInfo st1 hO hGet hF hCO hLoop)
        obtain ⟨htr, hprom, hheadN, hcommits, hobj⟩ :=
          runCopyLoop_ok w srcRepo.fs sEnv.path tEnv.path sEnv.name tEnv.name
            (firstSeven srcRepo.headHash) obj.copy _ st1 hLoop
        have htr2 : st1.trace =
            ([Effect.cloneSource, Effect.cloneTarget, Effect.providerRepo,
                Effect.providerList] ++
              [Effect.prGet obj.status.lastPullRequestNumber, Effect.fetchRemote,
                Effect.checkoutBranch prInfo.sourceBranch false true]) ++
            specLoopTrace srcRepo.fs sEnv.path tEnv.path sEnv.name tEnv.name
              (firstSeven srcRepo.headHash) obj.copy w.prBranchTree
              w.prBranchTree.files := htr
        have hprom2 : st1.promoted = [] ++
            (dirtySelect srcRepo.fs sEnv.path tEnv.path obj.copy w.prBranchTree
              w.prBranchTree.files).map (fun o => o.name) := hprom
        have hcp2 : copyPairs st1.trace =
            copyPairs (([Effect.cloneSource, Effect.cloneTarget, Effect.providerRepo,
                Effect.providerList] ++
              [Effect.prGet obj.status.lastPullRequestNumber, Effect.fetchRemote,
                Effect.checkoutBranch prInfo.sourceBranch false true])) ++
            obj.copy.map (fun o => (secureJoin sEnv.path o.source,
              secureJoin tEnv.path o.target)) :=
          runCopyLoop_copyPairs w srcRepo.fs sEnv.path tEnv.path sEnv.name tEnv.name
            (firstSeven srcRepo.headHash) obj.copy _ st1 hLoop
        by_cases hh : st1.headN = 0
        · rw [hred, syncPR_clean_open w sEnv.name tEnv.name tEnv.reference prInfo.number
            prInfo.sourceBranch st1 hh]
          refine ⟨?_, ?_, dirtySelect_sublist _ _ _ _ _ _, ?_, ?_, ?_⟩
          · rw [finishRec_trace, commitMsgs_append, htr2, commitMsgs_append,
              commitMsgs_specLoopTrace]
            simp [commitMsgs]
          · rw [finishRec_trace, pushCnt_append, htr2, pushCnt_append,
              pushCnt_specLoopTrace]
            simp [pushCnt]
          · rw [finishRec_trace, copyPairs_append, hcp2]
            simp [copyPairs]
          · rw [finishRec_trace, prCreates_append, htr2, prCreates_append,
              prCreates_specLoopTrace]
            simp [prCreates]
          · rw [finishRec_trace, prEdits_append, htr2, prEdits_append,
              prEdits_specLoopTrace]
            simp [prEdits]
        · cases hed : w.editPRR with
          | error e2 =>
            rw [hred, syncPR_edit_err w sEnv.name tEnv.name tEnv.reference prInfo.number
              prInfo.sourceBranch st1 e2 hh hed] at hErr
            simp [finishRec] at hErr
          | ok u =>
            cases u
            rw [hred, syncPR_edit w sEnv.name tEnv.name tEnv.reference prInfo.number
              prInfo.sourceBranch st1 hh hed]
            refine ⟨?_, ?_, dirtySelect_sublist _ _ _ _ _ _, ?_, ?_, ?_⟩
            · rw [finishRec_trace, commitMsgs_append, commitMsgs_append, htr2,
                commitMsgs_append, commitMsgs_specLoopTrace]
              simp [commitMsgs]
            · rw [finishRec_trace, pushCnt_append, pushCnt_append, htr2,
                pushCnt_append, pushCnt_specLoopTrace]
              simp [pushCnt]
            · rw [finishRec_trace, copyPairs_append, copyPairs_append, hcp2]
              simp [copyPairs]
            · rw [finishRec_trace, prCreates_append, prCreates_append, htr2,
                prCreates_append, prCreates_specLoopTrace]
              simp [prCreates]
            · rw [finishRec_trace, prEdits_append, prEdits_append, htr2,
                prEdits_append, prEdits_specLoopTrace, hprom2]
              simp [prEdits]
  · simp only [Bool.not_eq_true] at hO
    simp only [hO, Bool.false_eq_true, if_false] at hAcq hfs0
    subst hfs0
    cases hLoop : runCopyLoop w srcRepo.fs sEnv.path tEnv.path sEnv.name tEnv.name
        (firstSeven srcRepo.headHash) obj.copy
        { tgt := fs0
          committed := fs0.files
          headN := 0
          promoted := []
          commits := 0
          obj := obj
          trace := [Effect.cloneSource, Effect.cloneTarget, Effect.providerRepo,
              Effect.providerList] ++
            [Effect.checkoutBranch (freshBranchName obj.name w.timestampStr) true false] } with
    | mk st1 eOut =>
      cases eOut with
      | some e =>
        have hred := hEntry.trans (acquireAndRun_new_err w obj sEnv tEnv srcRepo fs0 prs
          _ st1 e hO hAcq hLoop)
        rw [hred] at hErr
        simp [finishRec] at hErr
      | none =>
        have hred := hEntry.trans (acquireAndRun_new_ok w obj sEnv tEnv srcRepo fs0 prs
          _ st1 hO hAcq hLoop)
        obtain ⟨htr, hprom, hheadN, hcommits, hobj⟩ :=
          runCopyLoop_ok w srcRepo.fs sEnv.path tEnv.path sEnv.name tEnv.name
            (firstSeven srcRepo.headHash) obj.copy _ st1 hLoop
        have htr2 : st1.trace =
            ([Effect.cloneSource, Effect.cloneTarget, Effect.providerRepo,
                Effect.providerList] ++
              [Effect.checkoutBranch (freshBranchName obj.name w.timestampStr) true false]) ++
            specLoopTrace srcRepo.fs sEnv.path tEnv.path sEnv.name tEnv.name
              (firstSeven srcRepo.headHash) obj.copy fs0 fs0.files := htr
        have hprom2 : st1.promoted = [] ++
            (dirtySelect srcRepo.fs sEnv.path tEnv.path obj.copy fs0
              fs0.files).map (fun o => o.name) := hprom
        have hcp2 : copyPairs st1.trace =
            copyPairs (([Effect.cloneSource, Effect.cloneTarget, Effect.providerRepo,
                Effect.providerList] ++
              [Effect.checkoutBranch (freshBranchName obj.name w.timestampStr) true false])) ++
            obj.copy.map (fun o => (secureJoin sEnv.path o.source,
              secureJoin tEnv.path o.target)) :=
          runCopyLoop_copyPairs w srcRepo.fs sEnv.path tEnv.path sEnv.name tEnv.name
            (firstSeven srcRepo.headHash) obj.copy _ st1 hLoop
        by_cases hh : st1.headN = 0
        · rw [hred, syncPR_clean_closed w sEnv.name tEnv.name tEnv.reference 0
            (freshBranchName obj.name w.timestampStr) st1 hh]
          refine ⟨?_, ?_, dirtySelect_sublist _ _ _ _ _ _, ?_, ?_, ?_⟩
          · rw [finishRec_trace, commitMsgs_append, htr2, commitMsgs_append,
              commitMsgs_specLoopTrace]
            simp [commitMsgs]
          · rw [finishRec_trace, pushCnt_append, htr2, pushCnt_append,
              pushCnt_specLoopTrace]
            simp [pushCnt]
          · rw [finishRec_trace, copyPairs_append, hcp2]
            simp [copyPairs]
          · rw [finishRec_trace, prCreates_append, htr2, prCreates_append,
              prCreates_specLoopTrace]
            simp [prCreates]
          · rw [finishRec_trace, prEdits_append, htr2, prEdits_append,
              prEdits_specLoopTrace]
            simp [prEdits]
        · cases href : tEnv.reference with
          | none =>
            rw [href] at hred
            rw [hred, syncPR_nilref w sEnv.name tEnv.name 0
              (freshBranchName obj.name w.timestampStr) st1 hh] at hPan
            simp [finishRec] at hPan
          | some base =>
            rw [href] at hred
            cases hcr : w.createPRR with
            | error e2 =>
              rw [hred, syncPR_create_err w sEnv.name tEnv.name base 0
                (freshBranchName obj.name w.timestampStr) st1 e2 hh hcr] at hErr
              simp [finishRec] at hErr
            | ok prc =>
              rw [hred, syncPR_create w sEnv.name tEnv.name base 0
                (freshBranchName obj.name w.timestampStr) st1 prc hh hcr]
              refine ⟨?_, ?_, dirtySelect_sublist _ _ _ _ _ _, ?_, ?_, ?_⟩
              · rw [finishRec_trace, commitMsgs_append, commitMsgs_append, htr2,
                  commitMsgs_append, commitMsgs_specLoopTrace]
                simp [commitMsgs]
              · rw [finishRec_trace, pushCnt_append, pushCnt_append, htr2,
                  pushCnt_append, pushCnt_specLoopTrace]
                simp [pushCnt]
              · rw [finishRec_trace, copyPairs_append, copyPairs_append, hcp2]
                simp [copyPairs]
              · rw [finishRec_trace, prCreates_append, prCreates_append, htr2,
                  prCreates_append, prCreates_specLoopTrace, hprom2]
                simp [prCreates]
                intro t b ba ht hb hba
                exact ht
              · rw [finishRec_trace, prEdits_append, prEdits_append, htr2,
                  prEdits_append, prEdits_specLoopTrace]
                simp [prEdits]

/-- Witness for C4 at the dirty concrete world. -/
theorem c4_order_preservation_witness :
    commitMsgs (reconcile worldDirty objC).trace =
      (dirtySelect srcRepoC.fs sEnvC.path tEnvC.path objC.copy tgtTreeDirtyC
        tgtTreeDirtyC.files).map
        (fun o => mkCommitMsg o.name sEnvC.name tEnvC.name (firstSeven srcRepoC.headHash)) ∧
    pushCnt (reconcile worldDirty objC).trace =
      (dirtySelect srcRepoC.fs sEnvC.path tEnvC.path objC.copy tgtTreeDirtyC
        tgtTreeDirtyC.files).length ∧
    (dirtySelect srcRepoC.fs sEnvC.path tEnvC.path objC.copy tgtTreeDirtyC
      tgtTreeDirtyC.files).Sublist objC.copy ∧
    copyPairs (reconcile worldDirty objC).trace =
      objC.copy.map (fun o => (secureJoin sEnvC.path o.source, secureJoin tEnvC.path o.target)) ∧
    (∀ t b ba, (t, b, ba) ∈ prCreates (reconcile worldDirty objC).trace →
      t = mkPRTitle ((dirtySelect srcRepoC.fs sEnvC.path tEnvC.path objC.copy tgtTreeDirtyC
          tgtTreeDirtyC.files).map (fun o => o.name)) sEnvC.name tEnvC.name) ∧
    (∀ n t, (n, t) ∈ prEdits (reconcile worldDirty objC).trace →
      t = mkPRTitle ((dirtySelect srcRepoC.fs sEnvC.path tEnvC.path objC.copy tgtTreeDirtyC
          tgtTreeDirtyC.files).map (fun o => o.name)) sEnvC.name tEnvC.name) :=
  c4_order_preservation worldDirty objC sEnvC tEnvC srcRepoC tgtTreeDirtyC [] tgtTreeDirtyC
    rfl rfl (by decide) (by decide) rfl rfl rfl rfl rfl rfl rfl
    (by
      have h : isPROpenCheck objC.status.lastPullRequestNumber ([] : List PRInfo) = false := rfl
      rw [h]
      simp [worldDirty, worldBase])
    (by
      have h : isPROpenCheck objC.status.lastPullRequestNumber ([] : List PRInfo) = false := rfl
      rw [h]
      simp)
    (by decide) (by decide)

/-- Witness for C3 at the dirty concrete world with no open request. -/
theorem c3_resume_vs_recreate_witness :
    (reconcile worldDirty objC).err = none ∧
    commitMsgs (reconcile worldDirty objC).trace ≠ [] ∧
    (∃ base prc,
      tEnvC.reference = some base ∧
      worldDirty.createPRR = Except.ok prc ∧
      prCreates (reconcile worldDirty objC).trace =
        [(mkPRTitle ((dirtySelect srcRepoC.fs sEnvC.path tEnvC.path objC.copy tgtTreeDirtyC
            tgtTreeDirtyC.files).map (fun o => o.name)) sEnvC.name tEnvC.name,
          freshBranchName objC.name worldDirty.timestampStr, base)] ∧
      prEdits (reconcile worldDirty objC).trace = [] ∧
      (reconcile worldDirty objC).obj.status.lastPullRequestNumber = prc.number ∧
      (reconcile worldDirty objC).obj.status.lastPullRequestURL = prc.url) :=
  ⟨by decide, by decide,
   c3_resume_vs_recreate worldDirty objC sEnvC tEnvC srcRepoC tgtTreeDirtyC []
     rfl rfl (by decide) (by decide) rfl rfl rfl rfl rfl rfl rfl rfl rfl
     (by decide) (by decide) (by decide)⟩
